import Mathlib

/-!
A shallow embedding of `src/mongo_cloner/logic.py` (class `MongoClonerLogic`)
and proofs about its three operations: `direct_clone`, `dump_to_file` and
`restore_from_file`.

Modelling conventions:
* A MongoDB document is an ordered field mapping (`BDoc`), its values drawn
  from a closed value type `BVal` covering the kinds the codec handles.
* A destination collection is a map from `_id` value to document; a
  `ReplaceOne({'_id': k}, d, upsert=True)` write is the map update
  `upsert k d`.  Upserts never raise duplicate-key errors, which is exactly
  why the code uses them.
* The serialization codec in the source is
  `json.dumps(doc, default=json_util.default)` on the way out and
  `json.loads(line, object_hook=json_util.object_hook)` on the way back;
  the generic JSON text transport (the `json` stdlib) is an external
  collaborator, so it is modelled at the JSON value level (`JVal`): `encode`
  is the tagging performed by `json_util.default` during dumping and
  `decodeJ` is the bottom-up `object_hook` pass performed during loading.
* A line of a dump file is modelled by what the external strip/parse steps
  make of it: `Line.blank` (a line whose `strip()` is empty), `Line.json j`
  (a line the JSON parser accepts, yielding `j`), `Line.bad` (a malformed
  line: the parser raises).
* `MongoClient(uri)` resolution is external; the filesystem check
  `os.path.isdir(input_path)` is modelled by passing the directory content
  as `Option` (`none` = not a directory).
-/

mutual
/-- BSON-side document values (the Python objects the cloner moves around).
`binary`'s payload is carried in its base64 text form: the byte/base64
conversion lives in the external `bson` library. -/
inductive BVal where
  | null : BVal
  | bool (b : Bool) : BVal
  | int (n : Int) : BVal
  | float (q : ℚ) : BVal
  | str (s : String) : BVal
  | arr (elems : BArr) : BVal
  | doc (fields : BDoc) : BVal
  | timestamp (t i : Nat) : BVal
  | binary (subtype : Fin 256) (payload : String) : BVal
  | objectId (hex : String) : BVal
deriving DecidableEq

/-- An ordered sequence of BSON values (a Python list). -/
inductive BArr where
  | nil : BArr
  | cons (hd : BVal) (tl : BArr) : BArr
deriving DecidableEq

/-- An ordered field mapping (a Python dict as loaded from Mongo). -/
inductive BDoc where
  | nil : BDoc
  | field (name : String) (val : BVal) (rest : BDoc) : BDoc
deriving DecidableEq
end

mutual
/-- Plain JSON values, the output of the external text parser and the input
of the external text printer. Python JSON keeps `int` and `float` literals
distinct, so both constructors are present. -/
inductive JVal where
  | null : JVal
  | bool (b : Bool) : JVal
  | int (n : Int) : JVal
  | float (q : ℚ) : JVal
  | str (s : String) : JVal
  | arr (elems : JArr) : JVal
  | obj (fields : JObj) : JVal
deriving DecidableEq

/-- An ordered sequence of JSON values. -/
inductive JArr where
  | nil : JArr
  | cons (hd : JVal) (tl : JArr) : JArr
deriving DecidableEq

/-- An ordered JSON object. -/
inductive JObj where
  | nil : JObj
  | field (name : String) (val : JVal) (rest : JObj) : JObj
deriving DecidableEq
end

/-- `"%02x" % n` for a byte, as `json_util` renders a binary subtype. -/
def hexDigit (n : Nat) : Char :=
  if n < 10 then Char.ofNat (48 + n) else Char.ofNat (87 + n)

def hexByte (b : Fin 256) : String :=
  String.mk [hexDigit (b.val / 16), hexDigit (b.val % 16)]

def unhexDigit (c : Char) : Option Nat :=
  if 48 ≤ c.toNat ∧ c.toNat ≤ 57 then some (c.toNat - 48)
  else if 97 ≤ c.toNat ∧ c.toNat ≤ 102 then some (c.toNat - 87)
  else none

def unhexByte (s : String) : Option (Fin 256) :=
  match s.data with
  | [c1, c2] =>
    match unhexDigit c1, unhexDigit c2 with
    | some h, some l =>
      if hlt : 16 * h + l < 256 then some ⟨16 * h + l, hlt⟩ else none
    | _, _ => none
  | _ => none

mutual
/-- The encoding direction of the codec: what `json.dumps(·,
default=json_util.default)` produces before text printing.  Plain kinds
pass through; extended kinds get the reserved-key envelope. -/
def encode : BVal → JVal
  | .null => .null
  | .bool b => .bool b
  | .int n => .int n
  | .float q => .float q
  | .str s => .str s
  | .arr l => .arr (encodeArr l)
  | .doc fs => .obj (encodeDoc fs)
  | .timestamp t i =>
      .obj (.field "$timestamp"
        (.obj (.field "t" (.int t) (.field "i" (.int i) .nil))) .nil)
  | .binary st payload =>
      .obj (.field "$binary"
        (.obj (.field "base64" (.str payload)
          (.field "subType" (.str (hexByte st)) .nil))) .nil)
  | .objectId h => .obj (.field "$oid" (.str h) .nil)

def encodeArr : BArr → JArr
  | .nil => .nil
  | .cons v rest => .cons (encode v) (encodeArr rest)

def encodeDoc : BDoc → JObj
  | .nil => .nil
  | .field k v rest => .field k (encode v) (encodeDoc rest)
end

/-- Hex characters accepted by `bytes.fromhex` when `ObjectId(str)`
validates its argument. -/
def isHexChar (c : Char) : Bool :=
  (48 ≤ c.toNat && c.toNat ≤ 57) || (97 ≤ c.toNat && c.toNat ≤ 102) ||
    (65 ≤ c.toNat && c.toNat ≤ 70)

/-- A valid ObjectId text: exactly 24 hex characters. -/
def isHex24 (s : String) : Bool :=
  decide (s.data.length = 24) && s.data.all isHexChar

def isB64Char (c : Char) : Bool :=
  (65 ≤ c.toNat && c.toNat ≤ 90) || (97 ≤ c.toNat && c.toNat ≤ 122) ||
    (48 ≤ c.toNat && c.toNat ≤ 57) || c == '+' || c == '/'

/-- Clean base64 text (strict alphabet, at most two `=` of padding, length
a multiple of four).  `base64.b64decode` is lenient (it discards foreign
characters and only raises on bad padding), so this check is conservative:
every string it accepts the external decoder accepts too. -/
def isB64 (s : String) : Bool :=
  let l := s.data
  let pad := (l.reverse.takeWhile (fun c => c == '=')).length
  decide (l.length % 4 = 0) && decide (pad ≤ 2) &&
    (l.take (l.length - pad)).all isB64Char

/-- The key set of `json_util._PARSERS`: `object_hook` scans the object's
keys in order and dispatches to a parser as soon as one of these is
found. -/
def reservedKeys : List String :=
  ["$oid", "$ref", "$date", "$regex", "$minKey", "$maxKey", "$binary",
   "$code", "$uuid", "$undefined", "$numberLong", "$timestamp",
   "$numberDecimal", "$dbPointer", "$regularExpression", "$symbol",
   "$numberInt", "$numberDouble"]

def isReservedKey (k : String) : Bool := reservedKeys.contains k

/-- The first reserved key of an object, in field order — exactly the
`for k in dct: if k in _PARSERS_SET: break` scan of `object_hook`. -/
def firstReserved : BDoc → Option String
  | .nil => none
  | .field k _ rest => if isReservedKey k then some k else firstReserved rest

/-- The parser `object_hook` dispatches to for a matched reserved key,
applied to the whole object; `none` models the parser raising.  The three
envelopes the value type supports are parsed exactly as their canonical
parsers do (single-key object, typed payload, timestamp fields in
`[0, 2^32)`, base64 payload, two-hex-digit subtype, 24-hex object id);
every other dispatch — a foreign tag such as `$date`, a payload the
canonical parser rejects, or a lenient corner (`$ref`/`$regex`
fall-through, a timestamp envelope with extra top-level fields, odd
base64) — is modelled as a raise.  This is conservative: whenever the
model returns `some v` the external codec produces exactly `v`, and a
model `none` never makes any theorem claim success. -/
def parseReserved (k : String) (fs : BDoc) : Option BVal :=
  match k, fs with
  | "$timestamp", .field "$timestamp"
      (.doc (.field "t" (.int t) (.field "i" (.int i) .nil))) .nil =>
      if 0 ≤ t ∧ t < 4294967296 then
        if 0 ≤ i ∧ i < 4294967296 then some (.timestamp t.toNat i.toNat)
        else none
      else none
  | "$binary", .field "$binary"
      (.doc (.field "base64" (.str payload)
        (.field "subType" (.str h) .nil))) .nil =>
      if isB64 payload then
        match unhexByte h with
        | some st => some (.binary st payload)
        | none => none
      else none
  | "$oid", .field "$oid" (.str h) .nil =>
      if isHex24 h then some (.objectId h) else none
  | _, _ => none

/-- `json_util.object_hook` on one (already decoded) object: pass the
object through unchanged when none of its keys is reserved, otherwise
dispatch on the first reserved key found. -/
def hookObj (fs : BDoc) : Option BVal :=
  match firstReserved fs with
  | none => some (.doc fs)
  | some k => parseReserved k fs

mutual
/-- The decoding direction of the codec: the bottom-up `object_hook` pass
`json.loads(·, object_hook=json_util.object_hook)` applies to the parsed
JSON value. -/
def decodeJ : JVal → Option BVal
  | .null => some .null
  | .bool b => some (.bool b)
  | .int n => some (.int n)
  | .float q => some (.float q)
  | .str s => some (.str s)
  | .arr l =>
      match decodeArr l with
      | some bs => some (.arr bs)
      | none => none
  | .obj fs =>
      match decodeObj fs with
      | some bfs => hookObj bfs
      | none => none

def decodeArr : JArr → Option BArr
  | .nil => some .nil
  | .cons j rest =>
      match decodeJ j, decodeArr rest with
      | some b, some bs => some (.cons b bs)
      | _, _ => none

def decodeObj : JObj → Option BDoc
  | .nil => some .nil
  | .field k j rest =>
      match decodeJ j, decodeObj rest with
      | some b, some bs => some (.field k b bs)
      | _, _ => none
end

/-- A document node is reserved when any of its keys belongs to the
parser table — the hook then dispatches instead of passing the object
through, so such documents are not codec-supported user data. -/
def reservedDoc (fs : BDoc) : Bool :=
  (firstReserved fs).isSome

mutual
/-- Codec-supported values: no document node carries a reserved key, and
extended values are the ones the external types can hold — timestamp
fields below `2^32`, clean base64 payload text, 24-hex object ids (the
forms the real dump emits). -/
def wfB : BVal → Bool
  | .null => true
  | .bool _ => true
  | .int _ => true
  | .float _ => true
  | .str _ => true
  | .arr l => wfArr l
  | .doc fs => !reservedDoc fs && wfDoc fs
  | .timestamp t i => decide (t < 4294967296) && decide (i < 4294967296)
  | .binary _ payload => isB64 payload
  | .objectId h => isHex24 h

def wfArr : BArr → Bool
  | .nil => true
  | .cons v rest => wfB v && wfArr rest

def wfDoc : BDoc → Bool
  | .nil => true
  | .field _ v rest => wfB v && wfDoc rest
end

/-! ### Python string primitives used by the source

`str.startswith`, `str.endswith`, slicing `[:-5]`, `in`, and
`str.replace('.:', ':')` are external builtins; they are modelled on the
character sequence of the string. -/

def listStarts : List Char → List Char → Bool
  | [], _ => true
  | _ :: _, [] => false
  | a :: as, b :: bs => a == b && listStarts as bs

/-- Python `s.startswith(p)`. -/
def strStarts (s p : String) : Bool := listStarts p.data s.data

/-- Python `s.endswith(p)`. -/
def strEnds (s p : String) : Bool := listStarts p.data.reverse s.data.reverse

/-- Python `s[:-n]` for `n ≤ len(s)`. -/
def strDropRight (s : String) (n : Nat) : String :=
  String.mk (s.data.take (s.data.length - n))

def listHasSub (p : List Char) : List Char → Bool
  | [] => p.isEmpty
  | c :: rest => listStarts p (c :: rest) || listHasSub p rest

/-- Python `p in s` (substring membership). -/
def strHasSub (s p : String) : Bool := listHasSub p.data s.data

/-- Python `uri.replace('.:', ':')`: every occurrence of `.:`, scanned left
to right without overlap, becomes `:`. -/
def cleanChars : List Char → List Char
  | [] => []
  | [c] => [c]
  | c1 :: c2 :: rest =>
    if c1 = '.' ∧ c2 = ':' then ':' :: cleanChars rest
    else c1 :: cleanChars (c2 :: rest)

/-- `MongoClonerLogic._clean_uri`: `uri.replace('.:', ':')`. -/
def cleanUri (uri : String) : String := String.mk (cleanChars uri.data)

/-! ### Destination state and writes -/

abbrev Coll := BVal → Option BDoc
abbrev DB := String → Coll

def emptyColl : Coll := fun _ => none
def emptyDB : DB := fun _ => emptyColl

/-- One `ReplaceOne({'_id': k}, d, upsert=True)`: insert when the key is
absent, replace when present. -/
def upsert (k : BVal) (d : BDoc) (c : Coll) : Coll :=
  fun x => if x = k then some d else c x

/-- Python dict lookup `doc[name]`; `none` models a raised `KeyError`. -/
def getField : BDoc → String → Option BVal
  | .nil, _ => none
  | .field k v rest, name => if k = name then some v else getField rest name

/-- `coll.bulk_write(batch_ops, ordered=False)`: apply every pending
`ReplaceOne` upsert of the batch. -/
def applyBatch (ops : List (BVal × BDoc)) (c : Coll) : Coll :=
  ops.foldl (fun acc p => upsert p.1 p.2 acc) c

def updateColl (cname : String) (f : Coll → Coll) (db : DB) : DB :=
  fun c => if c = cname then f (db c) else db c

/-- Observable state threaded through a run: the destination database, the
lines sent to the log callback, and an instrumentation trace recording each
`bulk_write` call as (collection, batch size). -/
structure St where
  db : DB
  logs : List String
  flushes : List (String × Nat)

def logMsg (m : String) (st : St) : St := { st with logs := st.logs ++ [m] }

def bulkWrite (cname : String) (ops : List (BVal × BDoc)) (st : St) : St :=
  { st with db := updateColl cname (applyBatch ops) st.db,
            flushes := st.flushes ++ [(cname, ops.length)] }

/-- `self.batch_size` as set in `MongoClonerLogic.__init__`. -/
def defaultBatchSize : Nat := 1000

/-- Detail text of the `KeyError` raised by `doc["_id"]`: Python renders
`str(KeyError("_id"))` with quotes around the key. -/
def keyErrorId : String :=
  String.mk [Char.ofNat 39, Char.ofNat 95, Char.ofNat 105, Char.ofNat 100, Char.ofNat 39]

/-- Detail text of the error raised by `json.loads` on a malformed line. -/
def jsonErrorDetail : String := "Expecting value: line 1 column 1 (char 0)"

/-- Detail text of the `TypeError` raised by `doc['_id']` when the decoded
line is not an object. -/
def typeErrorDetail : String := "object is not subscriptable"

/-! ### direct_clone -/

/-- The per-document loop of `direct_clone` (`for doc in cursor`): append a
`ReplaceOne` keyed by `doc['_id']` and flush whenever the pending batch
reaches `batch_size`.  An error carries the state at the moment it is
raised (the pending batch is lost). -/
def cloneDocs (T : Nat) (cname : String) :
    List BDoc → List (BVal × BDoc) → Nat → St →
    Except (String × St) (List (BVal × BDoc) × Nat × St)
  | [], batch, count, st => .ok (batch, count, st)
  | d :: rest, batch, count, st =>
    match getField d "_id" with
    | none => .error (keyErrorId, st)
    | some k =>
      let batch2 := batch ++ [(k, d)]
      if T ≤ batch2.length then
        let c2 := count + batch2.length
        let st2 := logMsg s!"  Processed {c2} documents (upserts)..."
          (bulkWrite cname batch2 st)
        cloneDocs T cname rest [] c2 st2
      else
        cloneDocs T cname rest batch2 count st

/-- One collection of `direct_clone`: run the document loop, then flush the
remainder (`if batch_ops:`). -/
def cloneColl (T : Nat) (cname : String) (docs : List BDoc) (st : St) :
    Except (String × St) St :=
  match cloneDocs T cname docs [] 0 st with
  | .error e => .error e
  | .ok (batch, count, st2) =>
    if batch.isEmpty then .ok st2
    else
      let c2 := count + batch.length
      .ok (logMsg s!"  Finished {cname} with {c2} documents."
        (bulkWrite cname batch st2))

/-- The collection loop of `direct_clone`, skipping names with the
`system.` prefix. -/
def cloneColls (T : Nat) : List (String × List BDoc) → St →
    Except (String × St) St
  | [], st => .ok st
  | (cname, docs) :: rest, st =>
    if strStarts cname "system." then cloneColls T rest st
    else
      match cloneColl T cname docs (logMsg s!"Cloning collection: {cname}" st) with
      | .error e => .error e
      | .ok st2 => cloneColls T rest st2

/-- `MongoClonerLogic.direct_clone`.  The source database is given as its
enumerated content (`list_collection_names` order with each collection's
cursor stream); connection resolution is external.  Returns the integer
status and the final observable state. -/
def directClone (T : Nat) (srcDbName dstDbName : String)
    (src : List (String × List BDoc)) (db0 : DB) : Int × St :=
  match cloneColls T src
      { db := db0, flushes := [],
        logs := [s!"Starting direct clone from {srcDbName} to {dstDbName}"] } with
  | .ok st => ((0 : Int), logMsg "Direct clone completed successfully." st)
  | .error (e, st) => ((1 : Int), logMsg s!"ERROR: {e}" st)

/-! ### dump_to_file -/

/-- A line of a dump file, as the external strip/parse steps classify it. -/
inductive Line where
  | blank : Line
  | json (j : JVal) : Line
  | bad : Line
deriving DecidableEq

/-- The per-collection body of `dump_to_file`: one encoded document per
line. -/
def dumpColl (docs : List BDoc) : List Line :=
  docs.map (fun d => Line.json (encode (.doc d)))

/-- The collection loop of `dump_to_file`: skip `system.` names, write
`<collection>.json`, log one line per exported collection. -/
def dumpColls : List (String × List BDoc) → List (String × List Line) →
    List String → List (String × List Line) × List String
  | [], files, logs => (files, logs)
  | (cname, docs) :: rest, files, logs =>
    if strStarts cname "system." then dumpColls rest files logs
    else
      dumpColls rest (files ++ [(cname ++ ".json", dumpColl docs)])
        (logs ++ [s!"Exporting collection: {cname}"])

/-- `MongoClonerLogic.dump_to_file`.  Returns the status, the files written
into the output directory and the log lines. -/
def dumpToFile (dbName outPath : String) (src : List (String × List BDoc)) :
    Int × List (String × List Line) × List String :=
  let fl := dumpColls src [] [s!"Dumping database {dbName} to {outPath}"]
  ((0 : Int), fl.1, fl.2 ++ ["Dump completed successfully."])

/-! ### restore_from_file -/

/-- The per-line loop of `restore_from_file`: skip blank lines, decode,
append a `ReplaceOne` keyed by `doc['_id']`, flush at `batch_size`. -/
def restoreLines (T : Nat) (cname : String) :
    List Line → List (BVal × BDoc) → Nat → St →
    Except (String × St) (List (BVal × BDoc) × Nat × St)
  | [], batch, count, st => .ok (batch, count, st)
  | l :: rest, batch, count, st =>
    match l with
    | .blank => restoreLines T cname rest batch count st
    | .bad => .error (jsonErrorDetail, st)
    | .json j =>
      match decodeJ j with
      | none => .error (jsonErrorDetail, st)
      | some v =>
        match v with
        | .doc d =>
          match getField d "_id" with
          | none => .error (keyErrorId, st)
          | some k =>
            let batch2 := batch ++ [(k, d)]
            if T ≤ batch2.length then
              let c2 := count + batch2.length
              let st2 := logMsg s!"  Imported {c2} documents (upserts)..."
                (bulkWrite cname batch2 st)
              restoreLines T cname rest [] c2 st2
            else
              restoreLines T cname rest batch2 count st
        | _ => .error (typeErrorDetail, st)

/-- One dump file of `restore_from_file`: run the line loop, then flush the
remainder (`if batch_ops:`). -/
def restoreFile (T : Nat) (cname : String) (lines : List Line) (st : St) :
    Except (String × St) St :=
  match restoreLines T cname lines [] 0 st with
  | .error e => .error e
  | .ok (batch, count, st2) =>
    if batch.isEmpty then .ok st2
    else
      let c2 := count + batch.length
      .ok (logMsg s!"  Finished {cname} with {c2} documents."
        (bulkWrite cname batch st2))

/-- The directory loop of `restore_from_file`: every file whose name ends
in `.json` is imported into the collection named by the filename without
its last five characters. -/
def restoreFiles (T : Nat) : List (String × List Line) → St →
    Except (String × St) St
  | [], st => .ok st
  | (fname, lines) :: rest, st =>
    if strEnds fname ".json" then
      let cname := strDropRight fname 5
      match restoreFile T cname lines
          (logMsg s!"Importing collection: {cname}" st) with
      | .error e => .error e
      | .ok st2 => restoreFiles T rest st2
    else restoreFiles T rest st

/-- `MongoClonerLogic.restore_from_file`.  The input directory is `none`
when `os.path.isdir(input_path)` is false, otherwise the listing of the
directory with each file's lines. -/
def restoreFromFile (T : Nat) (dbName inputPath : String)
    (input : Option (List (String × List Line))) (db0 : DB) : Int × St :=
  match input with
  | none =>
    ((1 : Int), logMsg s!"ERROR: {inputPath} is not a directory."
      { db := db0, flushes := [],
        logs := [s!"Restoring database {dbName} from {inputPath}"] })
  | some files =>
    match restoreFiles T files
        { db := db0, flushes := [],
          logs := [s!"Restoring database {dbName} from {inputPath}"] } with
    | .ok st => ((0 : Int), logMsg "Restore completed successfully." st)
    | .error (e, st) => ((1 : Int), logMsg s!"ERROR: {e}" st)

/-! ### Shadow definitions

Pure images of the loops above, used to characterize runs: the control flow
of the source never inspects the destination database, so which writes are
committed, which log lines are emitted and whether a run fails depend only
on the source data and the threshold. -/

/-- A single committed `ReplaceOne` upsert: destination collection name,
`_id` key, replacement document. -/
abbrev Op := String × BVal × BDoc

def applyOp (db : DB) (op : Op) : DB := updateColl op.1 (upsert op.2.1 op.2.2) db

def applyOps (db : DB) (ops : List Op) : DB := ops.foldl applyOp db

def tagOps (cname : String) (ops : List (BVal × BDoc)) : List Op :=
  ops.map (fun p => (cname, p.1, p.2))

/-- The document whose `_id` wins at a given (collection, key) after a list
of upserts: the last write to that slot. -/
def lastWrite (c : String) (k : BVal) : List Op → Option BDoc
  | [] => none
  | op :: rest =>
    match lastWrite c k rest with
    | some d => some d
    | none => if op.1 = c ∧ op.2.1 = k then some op.2.2 else none

/-- State of either outcome of the document loop. -/
def stOfDocs : Except (String × St) (List (BVal × BDoc) × Nat × St) → St
  | .ok (_, _, st) => st
  | .error (_, st) => st

/-- State of either outcome of a collection / file / whole-run step. -/
def stOfRun : Except (String × St) St → St
  | .ok st => st
  | .error (_, st) => st

/-- Ops committed by the `direct_clone` document loop (full batches only;
an error loses the pending batch, and ops after the faulty document are
never reached). -/
def docsOps (T : Nat) (cname : String) : List BDoc → List (BVal × BDoc) → List Op
  | [], _ => []
  | d :: rest, batch =>
    match getField d "_id" with
    | none => []
    | some k =>
      let batch2 := batch ++ [(k, d)]
      if T ≤ batch2.length then tagOps cname batch2 ++ docsOps T cname rest []
      else docsOps T cname rest batch2

/-- Pending batch left by the `direct_clone` document loop; `none` when a
document lacks `_id`. -/
def docsPending (T : Nat) : List BDoc → List (BVal × BDoc) →
    Option (List (BVal × BDoc))
  | [], batch => some batch
  | d :: rest, batch =>
    match getField d "_id" with
    | none => none
    | some k =>
      let batch2 := batch ++ [(k, d)]
      if T ≤ batch2.length then docsPending T rest []
      else docsPending T rest batch2

/-- Ops committed by one collection of `direct_clone`, including the final
remainder flush. -/
def cloneCollOps (T : Nat) (cname : String) (docs : List BDoc) : List Op :=
  match docsPending T docs [] with
  | none => docsOps T cname docs []
  | some batch => docsOps T cname docs [] ++ tagOps cname batch

/-- Ops committed by a whole `direct_clone` run (a failing collection stops
the run). -/
def cloneCollsOps (T : Nat) : List (String × List BDoc) → List Op
  | [] => []
  | (cname, docs) :: rest =>
    if strStarts cname "system." then cloneCollsOps T rest
    else
      match docsPending T docs [] with
      | none => cloneCollOps T cname docs
      | some _ => cloneCollOps T cname docs ++ cloneCollsOps T rest

/-- Whether a whole `direct_clone` run succeeds. -/
def cloneCollsOk (T : Nat) : List (String × List BDoc) → Bool
  | [] => true
  | (cname, docs) :: rest =>
    if strStarts cname "system." then cloneCollsOk T rest
    else
      match docsPending T docs [] with
      | none => false
      | some _ => cloneCollsOk T rest

/-- Sizes of the mid-loop flushes when `n` further items are appended one
by one to a pending batch of `r` ops with threshold `T`. -/
def flushSizesGo (T : Nat) : Nat → Nat → List Nat
  | 0, _ => []
  | n + 1, r =>
    if T ≤ r + 1 then (r + 1) :: flushSizesGo T n 0
    else flushSizesGo T n (r + 1)

/-- Cumulative totals reported at each mid-loop flush. -/
def flushCountsGo (T : Nat) : Nat → Nat → Nat → List Nat
  | 0, _, _ => []
  | n + 1, r, cnt =>
    if T ≤ r + 1 then (cnt + (r + 1)) :: flushCountsGo T n 0 (cnt + (r + 1))
    else flushCountsGo T n (r + 1) cnt

/-- Size of the pending batch at end of stream. -/
def pendingGo (T : Nat) : Nat → Nat → Nat
  | 0, r => r
  | n + 1, r =>
    if T ≤ r + 1 then pendingGo T n 0
    else pendingGo T n (r + 1)

/-- All flush sizes of one collection of `n` documents (mid-loop flushes
plus the remainder flush when one is due). -/
def collFlushSizes (T n : Nat) : List Nat :=
  flushSizesGo T n 0 ++ (if pendingGo T n 0 = 0 then [] else [pendingGo T n 0])

/-- Ops committed by the `restore_from_file` line loop (full batches only). -/
def linesOps (T : Nat) (cname : String) : List Line → List (BVal × BDoc) → List Op
  | [], _ => []
  | l :: rest, batch =>
    match l with
    | .blank => linesOps T cname rest batch
    | .bad => []
    | .json j =>
      match decodeJ j with
      | none => []
      | some v =>
        match v with
        | .doc d =>
          match getField d "_id" with
          | none => []
          | some k =>
            let batch2 := batch ++ [(k, d)]
            if T ≤ batch2.length then tagOps cname batch2 ++ linesOps T cname rest []
            else linesOps T cname rest batch2
        | _ => []

/-- Pending batch left by the `restore_from_file` line loop; `none` on any
decode / type / key error. -/
def linesPending (T : Nat) : List Line → List (BVal × BDoc) →
    Option (List (BVal × BDoc))
  | [], batch => some batch
  | l :: rest, batch =>
    match l with
    | .blank => linesPending T rest batch
    | .bad => none
    | .json j =>
      match decodeJ j with
      | none => none
      | some v =>
        match v with
        | .doc d =>
          match getField d "_id" with
          | none => none
          | some k =>
            let batch2 := batch ++ [(k, d)]
            if T ≤ batch2.length then linesPending T rest []
            else linesPending T rest batch2
        | _ => none

/-- Ops committed by one dump file during restore, including the final
remainder flush. -/
def restoreFileOps (T : Nat) (cname : String) (lines : List Line) : List Op :=
  match linesPending T lines [] with
  | none => linesOps T cname lines []
  | some batch => linesOps T cname lines [] ++ tagOps cname batch

/-- Ops committed by a whole `restore_from_file` run over a directory
listing. -/
def restoreFilesOps (T : Nat) : List (String × List Line) → List Op
  | [] => []
  | (fname, lines) :: rest =>
    if strEnds fname ".json" then
      let cname := strDropRight fname 5
      match linesPending T lines [] with
      | none => restoreFileOps T cname lines
      | some _ => restoreFileOps T cname lines ++ restoreFilesOps T rest
    else restoreFilesOps T rest

/-- Whether a whole restore run over a directory listing succeeds. -/
def restoreFilesOk (T : Nat) : List (String × List Line) → Bool
  | [] => true
  | (fname, lines) :: rest =>
    if strEnds fname ".json" then
      match linesPending T lines [] with
      | none => false
      | some _ => restoreFilesOk T rest
    else restoreFilesOk T rest

/-- `doc['_id']` of a document known to carry the field. -/
def idOf (d : BDoc) : BVal := (getField d "_id").getD .null

/-- The content of a source collection as a destination collection: every
document upserted under its `_id`, in stream order. -/
def collContent (docs : List BDoc) : Coll :=
  applyBatch (docs.map (fun d => (idOf d, d))) emptyColl

/-- A log line of the error boundary: text starting with `ERROR: `. -/
def errChars : List Char := ['E', 'R', 'R', 'O', 'R', ':', ' ']

def isErrLine (s : String) : Bool := listStarts errChars s.data

/-- How many log lines a run labels as errors. -/
def errCount (logs : List String) : Nat := logs.countP isErrLine

/-- Formalization of the claim phrase "trailing separator appearing
immediately before the port number": an occurrence of `.:` immediately
followed by a digit. -/
def dotColonDigit : List Char → Bool
  | [] => false
  | a :: rest =>
    (match a, rest with
     | '.', ':' :: c :: _ => c.isDigit
     | _, _ => false) || dotColonDigit rest

/-! ## Theorems -/

set_option maxRecDepth 8192 in
/-- Decoding a hex byte produced by `hexByte` recovers the byte. -/
theorem unhexByte_hexByte : ∀ b : Fin 256, unhexByte (hexByte b) = some b := by
  decide

/-- On a document none of whose keys is reserved, the hook passes the
object through unchanged. -/
theorem hookObj_eq_doc (fs : BDoc) (h : reservedDoc fs = false) :
    hookObj fs = some (.doc fs) := by
  cases hfr : firstReserved fs with
  | none => simp [hookObj, hfr]
  | some k => simp [reservedDoc, hfr] at h

mutual
/-- Codec round trip on values: decoding an encoded supported value
recovers it. -/
theorem decodeJ_encode : (v : BVal) → wfB v = true → decodeJ (encode v) = some v
  | .null, _ => rfl
  | .bool _, _ => rfl
  | .int _, _ => rfl
  | .float _, _ => rfl
  | .str _, _ => rfl
  | .arr l, h => by
      have hl : wfArr l = true := by simpa [wfB] using h
      simp [encode, decodeJ, decodeArr_encodeArr l hl]
  | .doc fs, h => by
      have h1 : reservedDoc fs = false ∧ wfDoc fs = true := by
        simpa [wfB, Bool.and_eq_true] using h
      simp [encode, decodeJ, decodeObj_encodeDoc fs h1.2, hookObj_eq_doc fs h1.1]
  | .timestamp t i, h => by
      have ht : t < 4294967296 ∧ i < 4294967296 := by
        simpa [wfB, Bool.and_eq_true] using h
      have h1 : (0 : Int) ≤ (t : Int) ∧ (t : Int) < 4294967296 :=
        ⟨Int.natCast_nonneg t, by exact_mod_cast ht.1⟩
      have h2 : (0 : Int) ≤ (i : Int) ∧ (i : Int) < 4294967296 :=
        ⟨Int.natCast_nonneg i, by exact_mod_cast ht.2⟩
      have hkt : isReservedKey "t" = false := by decide
      have hki : isReservedKey "i" = false := by decide
      have hkts : isReservedKey "$timestamp" = true := by decide
      simp [encode, decodeJ, decodeObj, hookObj, firstReserved,
        parseReserved, hkt, hki, hkts, h1, h2]
  | .binary st p, h => by
      have hb : isB64 p = true := by simpa [wfB] using h
      have hk64 : isReservedKey "base64" = false := by decide
      have hkst : isReservedKey "subType" = false := by decide
      have hkbin : isReservedKey "$binary" = true := by decide
      simp [encode, decodeJ, decodeObj, hookObj, firstReserved,
        parseReserved, hk64, hkst, hkbin, hb, unhexByte_hexByte]
  | .objectId hx, h => by
      have hh : isHex24 hx = true := by simpa [wfB] using h
      have hko : isReservedKey "$oid" = true := by decide
      simp [encode, decodeJ, decodeObj, hookObj, firstReserved,
        parseReserved, hh, hko]

theorem decodeArr_encodeArr : (l : BArr) → wfArr l = true →
    decodeArr (encodeArr l) = some l
  | .nil, _ => rfl
  | .cons v rest, h => by
      have hv : wfB v = true ∧ wfArr rest = true := by
        simpa [wfArr, Bool.and_eq_true] using h
      simp [encodeArr, decodeArr, decodeJ_encode v hv.1,
        decodeArr_encodeArr rest hv.2]

theorem decodeObj_encodeDoc : (fs : BDoc) → wfDoc fs = true →
    decodeObj (encodeDoc fs) = some fs
  | .nil, _ => rfl
  | .field k v rest, h => by
      have hv : wfB v = true ∧ wfDoc rest = true := by
        simpa [wfDoc, Bool.and_eq_true] using h
      simp [encodeDoc, decodeObj, decodeJ_encode v hv.1,
        decodeObj_encodeDoc rest hv.2]
end


/-! ### Write-set lemmas -/

theorem updateColl_comp (n : String) (f g : Coll → Coll) (db : DB) :
    updateColl n (fun c => f (g c)) db = updateColl n f (updateColl n g db) := by
  funext c
  unfold updateColl
  by_cases h : c = n <;> simp [h]

theorem updateColl_applyBatch :
    ∀ (ops : List (BVal × BDoc)) (cname : String) (db : DB),
      updateColl cname (applyBatch ops) db = applyOps db (tagOps cname ops) := by
  intro ops
  induction ops with
  | nil =>
    intro cname db
    funext c
    unfold updateColl applyBatch applyOps tagOps
    by_cases h : c = cname <;> simp [h]
  | cons p ops ih =>
    intro cname db
    have h1 : applyBatch (p :: ops) = fun c => applyBatch ops (upsert p.1 p.2 c) := rfl
    rw [h1, updateColl_comp, ih]
    rfl

theorem bulkWrite_db (cname : String) (ops : List (BVal × BDoc)) (st : St) :
    (bulkWrite cname ops st).db = applyOps st.db (tagOps cname ops) := by
  simp only [bulkWrite]
  exact updateColl_applyBatch ops cname st.db

theorem applyOps_nil (db : DB) : applyOps db [] = db := rfl

theorem applyOps_append (db : DB) (l1 l2 : List Op) :
    applyOps db (l1 ++ l2) = applyOps (applyOps db l1) l2 := by
  simp [applyOps, List.foldl_append]

theorem applyOps_lookup :
    ∀ (ops : List Op) (db : DB) (c : String) (k : BVal),
      applyOps db ops c k =
        match lastWrite c k ops with
        | some d => some d
        | none => db c k := by
  intro ops
  induction ops with
  | nil => intro db c k; rfl
  | cons op ops ih =>
    intro db c k
    have hstep : applyOps db (op :: ops) = applyOps (applyOp db op) ops := rfl
    rw [hstep, ih]
    cases hlw : lastWrite c k ops with
    | some d => simp [lastWrite, hlw]
    | none =>
      simp only [lastWrite, hlw]
      by_cases hc : c = op.1
      · by_cases hk : k = op.2.1
        · simp [applyOp, updateColl, upsert, hc, hk]
        · have hk2 : ¬ (op.2.1 = k) := fun h => hk h.symm
          simp [applyOp, updateColl, upsert, hc, hk, hk2]
      · have hc2 : ¬ (op.1 = c) := fun h => hc h.symm
        simp [applyOp, updateColl, upsert, hc, hc2]

/-- Applying the same committed write list twice is the same as applying it
once. -/
theorem applyOps_self (db : DB) (ops : List Op) :
    applyOps (applyOps db ops) ops = applyOps db ops := by
  funext c k
  rw [applyOps_lookup, applyOps_lookup]
  cases hlw : lastWrite c k ops with
  | some d => simp
  | none => simp [applyOps_lookup, hlw]

theorem lastWrite_none (c : String) (k : BVal) :
    ∀ ops : List Op, (∀ op ∈ ops, op.1 ≠ c) → lastWrite c k ops = none := by
  intro ops
  induction ops with
  | nil => intro _; rfl
  | cons op ops ih =>
    intro h
    have h1 : op.1 ≠ c := h op (List.mem_cons_self op ops)
    have h2 := ih (fun o ho => h o (List.mem_cons_of_mem op ho))
    simp [lastWrite, h2, h1]

/-- A collection no committed write names is untouched. -/
theorem applyOps_untouched (db : DB) (ops : List Op) (c : String)
    (h : ∀ op ∈ ops, op.1 ≠ c) : applyOps db ops c = db c := by
  funext k
  rw [applyOps_lookup, lastWrite_none c k ops h]

/-! ### Characterization of direct_clone -/

theorem logMsg_db (m : String) (st : St) : (logMsg m st).db = st.db := rfl

theorem cloneDocs_db (T : Nat) (cname : String) :
    ∀ (docs : List BDoc) (batch : List (BVal × BDoc)) (count : Nat) (st : St),
      (stOfDocs (cloneDocs T cname docs batch count st)).db =
        applyOps st.db (docsOps T cname docs batch) := by
  intro docs
  induction docs with
  | nil => intro batch count st; rfl
  | cons d rest ih =>
    intro batch count st
    cases hid : getField d "_id" with
    | none => simp [cloneDocs, docsOps, hid, stOfDocs, applyOps_nil]
    | some k =>
      by_cases hT : T ≤ (batch ++ [(k, d)]).length
      · simp only [cloneDocs, docsOps, hid, hT, if_true]
        rw [ih, applyOps_append]
        have h2 : (logMsg s!"  Processed {count + (batch ++ [(k, d)]).length} documents (upserts)..."
            (bulkWrite cname (batch ++ [(k, d)]) st)).db =
            applyOps st.db (tagOps cname (batch ++ [(k, d)])) := by
          rw [logMsg_db, bulkWrite_db]
        rw [h2]
      · simp only [cloneDocs, docsOps, hid, hT, if_false]
        exact ih _ _ _

theorem cloneDocs_pending (T : Nat) (cname : String) :
    ∀ (docs : List BDoc) (batch : List (BVal × BDoc)) (count : Nat) (st : St),
      match cloneDocs T cname docs batch count st with
      | .ok (b, _, _) => docsPending T docs batch = some b
      | .error _ => docsPending T docs batch = none := by
  intro docs
  induction docs with
  | nil => intro batch count st; rfl
  | cons d rest ih =>
    intro batch count st
    cases hid : getField d "_id" with
    | none => simp [cloneDocs, docsPending, hid]
    | some k =>
      by_cases hT : T ≤ (batch ++ [(k, d)]).length
      · simp only [cloneDocs, docsPending, hid, hT, if_true]
        exact ih _ _ _
      · simp only [cloneDocs, docsPending, hid, hT, if_false]
        exact ih _ _ _

theorem cloneColl_db (T : Nat) (cname : String) (docs : List BDoc) (st : St) :
    (stOfRun (cloneColl T cname docs st)).db =
      applyOps st.db (cloneCollOps T cname docs) := by
  have hp := cloneDocs_pending T cname docs [] 0 st
  have hdb := cloneDocs_db T cname docs [] 0 st
  unfold cloneColl cloneCollOps
  cases hres : cloneDocs T cname docs [] 0 st with
  | error e =>
    rw [hres] at hp hdb
    simp only [hp]
    simpa [stOfDocs, stOfRun] using hdb
  | ok tri =>
    obtain ⟨batch, count, st2⟩ := tri
    rw [hres] at hp hdb
    simp only [hp]
    simp only [stOfDocs] at hdb
    cases batch with
    | nil => simpa [stOfRun, tagOps, stOfDocs] using hdb
    | cons p ops =>
      simp only [List.isEmpty_cons, stOfRun, if_false, Bool.false_eq_true]
      rw [logMsg_db, bulkWrite_db, hdb, ← applyOps_append]

theorem cloneColl_isOk (T : Nat) (cname : String) (docs : List BDoc) (st : St) :
    (cloneColl T cname docs st).isOk = (docsPending T docs []).isSome := by
  have hp := cloneDocs_pending T cname docs [] 0 st
  unfold cloneColl
  cases hres : cloneDocs T cname docs [] 0 st with
  | error e =>
    rw [hres] at hp
    simp [hp, Except.isOk, Except.toBool]
  | ok tri =>
    obtain ⟨batch, count, st2⟩ := tri
    rw [hres] at hp
    cases batch with
    | nil => simp [hp, Except.isOk, Except.toBool]
    | cons p ops => simp [hp, Except.isOk, Except.toBool]

theorem cloneColls_db (T : Nat) :
    ∀ (src : List (String × List BDoc)) (st : St),
      (stOfRun (cloneColls T src st)).db = applyOps st.db (cloneCollsOps T src) := by
  intro src
  induction src with
  | nil => intro st; rfl
  | cons entry rest ih =>
    obtain ⟨cname, docs⟩ := entry
    intro st
    cases hsys : strStarts cname "system." with
    | true => simp only [cloneColls, cloneCollsOps, hsys, if_true]; exact ih st
    | false =>
      simp only [cloneColls, cloneCollsOps, hsys, Bool.false_eq_true, if_false]
      have hok := cloneColl_isOk T cname docs (logMsg s!"Cloning collection: {cname}" st)
      have hdb := cloneColl_db T cname docs (logMsg s!"Cloning collection: {cname}" st)
      cases hres : cloneColl T cname docs (logMsg s!"Cloning collection: {cname}" st) with
      | error e =>
        rw [hres] at hok hdb
        have hp : docsPending T docs [] = none := by
          cases hpc : docsPending T docs [] with
          | none => rfl
          | some b => rw [hpc] at hok; simp [Except.isOk, Except.toBool] at hok
        simp only [hp]
        simpa [stOfRun, logMsg_db] using hdb
      | ok st2 =>
        rw [hres] at hok hdb
        obtain ⟨b, hp⟩ : ∃ b, docsPending T docs [] = some b := by
          cases hpc : docsPending T docs [] with
          | none => rw [hpc] at hok; simp [Except.isOk, Except.toBool] at hok
          | some b => exact ⟨b, rfl⟩
        simp only [hp]
        rw [ih st2, applyOps_append]
        simp only [stOfRun, logMsg_db] at hdb
        rw [hdb]

theorem cloneColls_isOk (T : Nat) :
    ∀ (src : List (String × List BDoc)) (st : St),
      (cloneColls T src st).isOk = cloneCollsOk T src := by
  intro src
  induction src with
  | nil => intro st; rfl
  | cons entry rest ih =>
    obtain ⟨cname, docs⟩ := entry
    intro st
    cases hsys : strStarts cname "system." with
    | true => simp only [cloneColls, cloneCollsOk, hsys, if_true]; exact ih st
    | false =>
      simp only [cloneColls, cloneCollsOk, hsys, Bool.false_eq_true, if_false]
      have hok := cloneColl_isOk T cname docs (logMsg s!"Cloning collection: {cname}" st)
      cases hres : cloneColl T cname docs (logMsg s!"Cloning collection: {cname}" st) with
      | error e =>
        rw [hres] at hok
        have hp : docsPending T docs [] = none := by
          cases hpc : docsPending T docs [] with
          | none => rfl
          | some b => rw [hpc] at hok; simp [Except.isOk, Except.toBool] at hok
        simp [hp, Except.isOk, Except.toBool]
      | ok st2 =>
        rw [hres] at hok
        obtain ⟨b, hp⟩ : ∃ b, docsPending T docs [] = some b := by
          cases hpc : docsPending T docs [] with
          | none => rw [hpc] at hok; simp [Except.isOk, Except.toBool] at hok
          | some b => exact ⟨b, rfl⟩
        simp only [hp]
        exact ih st2

theorem directClone_db (T : Nat) (sn dn : String) (src : List (String × List BDoc))
    (db0 : DB) :
    (directClone T sn dn src db0).2.db = applyOps db0 (cloneCollsOps T src) := by
  have h := cloneColls_db T src
    { db := db0, flushes := [],
      logs := [s!"Starting direct clone from {sn} to {dn}"] }
  simp only [directClone]
  split
  · next st hres => rw [hres] at h; simpa [stOfRun, logMsg_db] using h
  · next e st hres => rw [hres] at h; simpa [stOfRun, logMsg_db] using h

theorem directClone_status (T : Nat) (sn dn : String) (src : List (String × List BDoc))
    (db0 : DB) :
    (directClone T sn dn src db0).1 = (if cloneCollsOk T src then (0 : Int) else 1) := by
  have h := cloneColls_isOk T src
    { db := db0, flushes := [],
      logs := [s!"Starting direct clone from {sn} to {dn}"] }
  simp only [directClone]
  split
  · next st hres =>
    rw [hres] at h
    simp [Except.isOk, Except.toBool] at h
    simp [h]
  · next e st hres =>
    rw [hres] at h
    simp [Except.isOk, Except.toBool] at h
    simp [h]

/-- Claim C1: replication is idempotent.  Every write of `direct_clone` is
a `ReplaceOne` upsert keyed by the document's `_id` (re-applying one
upsert, or the whole batch list, changes nothing the second time), so
running `direct_clone` twice consecutively over the same source leaves the
destination in exactly the state of running it once — same database
pointwise and same returned status, with no duplicate-key failure (upserts
replace instead of raising). -/
theorem direct_clone_idempotent :
    (∀ (k : BVal) (d : BDoc) (c : Coll),
      applyBatch [(k, d)] (applyBatch [(k, d)] c) = applyBatch [(k, d)] c) ∧
    ∀ (T : Nat) (sn dn : String) (src : List (String × List BDoc)) (db0 : DB),
      (directClone T sn dn src (directClone T sn dn src db0).2.db).2.db =
        (directClone T sn dn src db0).2.db ∧
      (directClone T sn dn src (directClone T sn dn src db0).2.db).1 =
        (directClone T sn dn src db0).1 := by
  constructor
  · intro k d c
    funext x
    simp only [applyBatch, List.foldl_cons, List.foldl_nil, upsert]
    by_cases h : x = k <;> simp [h]
  · intro T sn dn src db0
    constructor
    · rw [directClone_db, directClone_db]
      exact applyOps_self db0 (cloneCollsOps T src)
    · rw [directClone_status, directClone_status]

/-! ### Characterization of restore_from_file -/

theorem restoreLines_db (T : Nat) (cname : String) :
    ∀ (lines : List Line) (batch : List (BVal × BDoc)) (count : Nat) (st : St),
      (stOfDocs (restoreLines T cname lines batch count st)).db =
        applyOps st.db (linesOps T cname lines batch) := by
  intro lines
  induction lines with
  | nil => intro batch count st; rfl
  | cons l rest ih =>
    intro batch count st
    cases l with
    | blank => simp only [restoreLines, linesOps]; exact ih _ _ _
    | bad => simp [restoreLines, linesOps, stOfDocs, applyOps_nil]
    | json j =>
      cases hdec : decodeJ j with
      | none => simp [restoreLines, linesOps, hdec, stOfDocs, applyOps_nil]
      | some v =>
        cases v
        case doc d =>
          cases hid : getField d "_id" with
          | none => simp [restoreLines, linesOps, hdec, hid, stOfDocs, applyOps_nil]
          | some k =>
            by_cases hT : T ≤ (batch ++ [(k, d)]).length
            · simp only [restoreLines, linesOps, hdec, hid, hT, if_true]
              rw [ih, applyOps_append]
              have h2 : (logMsg s!"  Imported {count + (batch ++ [(k, d)]).length} documents (upserts)..."
                  (bulkWrite cname (batch ++ [(k, d)]) st)).db =
                  applyOps st.db (tagOps cname (batch ++ [(k, d)])) := by
                rw [logMsg_db, bulkWrite_db]
              rw [h2]
            · simp only [restoreLines, linesOps, hdec, hid, hT, if_false]
              exact ih _ _ _
        all_goals simp [restoreLines, linesOps, hdec, stOfDocs, applyOps_nil]

theorem restoreLines_pending (T : Nat) (cname : String) :
    ∀ (lines : List Line) (batch : List (BVal × BDoc)) (count : Nat) (st : St),
      match restoreLines T cname lines batch count st with
      | .ok (b, _, _) => linesPending T lines batch = some b
      | .error _ => linesPending T lines batch = none := by
  intro lines
  induction lines with
  | nil => intro batch count st; rfl
  | cons l rest ih =>
    intro batch count st
    cases l with
    | blank => simp only [restoreLines, linesPending]; exact ih _ _ _
    | bad => simp [restoreLines, linesPending]
    | json j =>
      cases hdec : decodeJ j with
      | none => simp [restoreLines, linesPending, hdec]
      | some v =>
        cases v
        case doc d =>
          cases hid : getField d "_id" with
          | none => simp [restoreLines, linesPending, hdec, hid]
          | some k =>
            by_cases hT : T ≤ (batch ++ [(k, d)]).length
            · simp only [restoreLines, linesPending, hdec, hid, hT, if_true]
              exact ih _ _ _
            · simp only [restoreLines, linesPending, hdec, hid, hT, if_false]
              exact ih _ _ _
        all_goals simp [restoreLines, linesPending, hdec]

theorem restoreFile_db (T : Nat) (cname : String) (lines : List Line) (st : St) :
    (stOfRun (restoreFile T cname lines st)).db =
      applyOps st.db (restoreFileOps T cname lines) := by
  have hp := restoreLines_pending T cname lines [] 0 st
  have hdb := restoreLines_db T cname lines [] 0 st
  unfold restoreFile restoreFileOps
  cases hres : restoreLines T cname lines [] 0 st with
  | error e =>
    rw [hres] at hp hdb
    simp only [hp]
    simpa [stOfDocs, stOfRun] using hdb
  | ok tri =>
    obtain ⟨batch, count, st2⟩ := tri
    rw [hres] at hp hdb
    simp only [hp]
    simp only [stOfDocs] at hdb
    cases batch with
    | nil => simpa [stOfRun, tagOps, stOfDocs] using hdb
    | cons p ops =>
      simp only [List.isEmpty_cons, stOfRun, if_false, Bool.false_eq_true]
      rw [logMsg_db, bulkWrite_db, hdb, ← applyOps_append]

theorem restoreFile_isOk (T : Nat) (cname : String) (lines : List Line) (st : St) :
    (restoreFile T cname lines st).isOk = (linesPending T lines []).isSome := by
  have hp := restoreLines_pending T cname lines [] 0 st
  unfold restoreFile
  cases hres : restoreLines T cname lines [] 0 st with
  | error e =>
    rw [hres] at hp
    simp [hp, Except.isOk, Except.toBool]
  | ok tri =>
    obtain ⟨batch, count, st2⟩ := tri
    rw [hres] at hp
    cases batch with
    | nil => simp [hp, Except.isOk, Except.toBool]
    | cons p ops => simp [hp, Except.isOk, Except.toBool]

theorem restoreFiles_db (T : Nat) :
    ∀ (files : List (String × List Line)) (st : St),
      (stOfRun (restoreFiles T files st)).db = applyOps st.db (restoreFilesOps T files) := by
  intro files
  induction files with
  | nil => intro st; rfl
  | cons entry rest ih =>
    obtain ⟨fname, lines⟩ := entry
    intro st
    cases hjson : strEnds fname ".json" with
    | false =>
      simp only [restoreFiles, restoreFilesOps, hjson, Bool.false_eq_true, if_false]
      exact ih st
    | true =>
      simp only [restoreFiles, restoreFilesOps, hjson, if_true]
      have hok := restoreFile_isOk T (strDropRight fname 5) lines
        (logMsg s!"Importing collection: {strDropRight fname 5}" st)
      have hdb := restoreFile_db T (strDropRight fname 5) lines
        (logMsg s!"Importing collection: {strDropRight fname 5}" st)
      cases hres : restoreFile T (strDropRight fname 5) lines
          (logMsg s!"Importing collection: {strDropRight fname 5}" st) with
      | error e =>
        rw [hres] at hok hdb
        have hp : linesPending T lines [] = none := by
          cases hpc : linesPending T lines [] with
          | none => rfl
          | some b => rw [hpc] at hok; simp [Except.isOk, Except.toBool] at hok
        simp only [hp]
        simpa [stOfRun, logMsg_db] using hdb
      | ok st2 =>
        rw [hres] at hok hdb
        obtain ⟨b, hp⟩ : ∃ b, linesPending T lines [] = some b := by
          cases hpc : linesPending T lines [] with
          | none => rw [hpc] at hok; simp [Except.isOk, Except.toBool] at hok
          | some b => exact ⟨b, rfl⟩
        simp only [hp]
        rw [ih st2, applyOps_append]
        simp only [stOfRun, logMsg_db] at hdb
        rw [hdb]

theorem restoreFiles_isOk (T : Nat) :
    ∀ (files : List (String × List Line)) (st : St),
      (restoreFiles T files st).isOk = restoreFilesOk T files := by
  intro files
  induction files with
  | nil => intro st; rfl
  | cons entry rest ih =>
    obtain ⟨fname, lines⟩ := entry
    intro st
    cases hjson : strEnds fname ".json" with
    | false =>
      simp only [restoreFiles, restoreFilesOk, hjson, Bool.false_eq_true, if_false]
      exact ih st
    | true =>
      simp only [restoreFiles, restoreFilesOk, hjson, if_true]
      have hok := restoreFile_isOk T (strDropRight fname 5) lines
        (logMsg s!"Importing collection: {strDropRight fname 5}" st)
      cases hres : restoreFile T (strDropRight fname 5) lines
          (logMsg s!"Importing collection: {strDropRight fname 5}" st) with
      | error e =>
        rw [hres] at hok
        have hp : linesPending T lines [] = none := by
          cases hpc : linesPending T lines [] with
          | none => rfl
          | some b => rw [hpc] at hok; simp [Except.isOk, Except.toBool] at hok
        simp [hp, Except.isOk, Except.toBool]
      | ok st2 =>
        rw [hres] at hok
        obtain ⟨b, hp⟩ : ∃ b, linesPending T lines [] = some b := by
          cases hpc : linesPending T lines [] with
          | none => rw [hpc] at hok; simp [Except.isOk, Except.toBool] at hok
          | some b => exact ⟨b, rfl⟩
        simp only [hp]
        exact ih st2

theorem restoreFromFile_db (T : Nat) (dbn p : String) (files : List (String × List Line))
    (db0 : DB) :
    (restoreFromFile T dbn p (some files) db0).2.db =
      applyOps db0 (restoreFilesOps T files) := by
  have h := restoreFiles_db T files
    { db := db0, flushes := [],
      logs := [s!"Restoring database {dbn} from {p}"] }
  simp only [restoreFromFile]
  split
  · next st hres => rw [hres] at h; simpa [stOfRun, logMsg_db] using h
  · next e st hres => rw [hres] at h; simpa [stOfRun, logMsg_db] using h

theorem restoreFromFile_status (T : Nat) (dbn p : String)
    (files : List (String × List Line)) (db0 : DB) :
    (restoreFromFile T dbn p (some files) db0).1 =
      (if restoreFilesOk T files then (0 : Int) else 1) := by
  have h := restoreFiles_isOk T files
    { db := db0, flushes := [],
      logs := [s!"Restoring database {dbn} from {p}"] }
  simp only [restoreFromFile]
  split
  · next st hres =>
    rw [hres] at h
    simp [Except.isOk, Except.toBool] at h
    simp [h]
  · next e st hres =>
    rw [hres] at h
    simp [Except.isOk, Except.toBool] at h
    simp [h]

/-! ### Dump file names -/

theorem listStarts_refl_append : ∀ (p rest : List Char), listStarts p (p ++ rest) = true := by
  intro p
  induction p with
  | nil => intro rest; rfl
  | cons a as ih => intro rest; simp [listStarts, ih]

theorem strEnds_json (c : String) : strEnds (c ++ ".json") ".json" = true := by
  simp only [strEnds, String.data_append, List.reverse_append]
  exact listStarts_refl_append _ _

theorem strDropRight_json (c : String) : strDropRight (c ++ ".json") 5 = c := by
  simp only [strDropRight, String.data_append]
  have h : (c.data ++ ".json".data).length - 5 = c.data.length := by
    simp [List.length_append]
  rw [h, List.take_left]

theorem dumpColls_files :
    ∀ (src : List (String × List BDoc)) (files : List (String × List Line))
      (logs : List String),
      (dumpColls src files logs).1 =
        files ++ (src.filter (fun e => !strStarts e.1 "system.")).map
          (fun e => (e.1 ++ ".json", dumpColl e.2)) := by
  intro src
  induction src with
  | nil => intro files logs; simp [dumpColls]
  | cons e rest ih =>
    obtain ⟨cname, docs⟩ := e
    intro files logs
    cases hsys : strStarts cname "system." with
    | true => simp [dumpColls, hsys, ih]
    | false => simp [dumpColls, hsys, ih]

theorem dumpToFile_files (dbn p : String) (src : List (String × List BDoc)) :
    (dumpToFile dbn p src).2.1 =
      (src.filter (fun e => !strStarts e.1 "system.")).map
        (fun e => (e.1 ++ ".json", dumpColl e.2)) := by
  simp only [dumpToFile]
  exact dumpColls_files src [] _

/-! ### Which collections a run writes -/

theorem tagOps_name (cname : String) (ops : List (BVal × BDoc)) :
    ∀ op ∈ tagOps cname ops, op.1 = cname := by
  intro op h
  simp only [tagOps, List.mem_map] at h
  obtain ⟨p, _, rfl⟩ := h
  rfl

theorem docsOps_name (T : Nat) (cname : String) :
    ∀ (docs : List BDoc) (batch : List (BVal × BDoc)) (op : Op),
      op ∈ docsOps T cname docs batch → op.1 = cname := by
  intro docs
  induction docs with
  | nil => intro batch op h; simp [docsOps] at h
  | cons d rest ih =>
    intro batch op h
    cases hid : getField d "_id" with
    | none => simp [docsOps, hid] at h
    | some k =>
      by_cases hT : T ≤ (batch ++ [(k, d)]).length
      · simp only [docsOps, hid, hT, if_true, List.mem_append] at h
        rcases h with h | h
        · exact tagOps_name cname _ op h
        · exact ih _ op h
      · simp only [docsOps, hid, hT, if_false] at h
        exact ih _ op h

theorem cloneCollOps_name (T : Nat) (cname : String) (docs : List BDoc) :
    ∀ op ∈ cloneCollOps T cname docs, op.1 = cname := by
  intro op h
  unfold cloneCollOps at h
  cases hp : docsPending T docs [] with
  | none => rw [hp] at h; exact docsOps_name T cname docs [] op h
  | some b =>
    rw [hp] at h
    rcases List.mem_append.mp h with h | h
    · exact docsOps_name T cname docs [] op h
    · exact tagOps_name cname b op h

theorem cloneCollsOps_nonsystem (T : Nat) :
    ∀ (src : List (String × List BDoc)) (op : Op),
      op ∈ cloneCollsOps T src → strStarts op.1 "system." = false := by
  intro src
  induction src with
  | nil => intro op h; simp [cloneCollsOps] at h
  | cons e rest ih =>
    obtain ⟨cname, docs⟩ := e
    intro op h
    cases hsys : strStarts cname "system." with
    | true =>
      simp only [cloneCollsOps, hsys, if_true] at h
      exact ih op h
    | false =>
      simp only [cloneCollsOps, hsys, Bool.false_eq_true, if_false] at h
      cases hp : docsPending T docs [] with
      | none =>
        rw [hp] at h
        rw [cloneCollOps_name T cname docs op h]
        exact hsys
      | some b =>
        rw [hp] at h
        rcases List.mem_append.mp h with h | h
        · rw [cloneCollOps_name T cname docs op h]; exact hsys
        · exact ih op h

theorem linesOps_name (T : Nat) (cname : String) :
    ∀ (lines : List Line) (batch : List (BVal × BDoc)) (op : Op),
      op ∈ linesOps T cname lines batch → op.1 = cname := by
  intro lines
  induction lines with
  | nil => intro batch op h; simp [linesOps] at h
  | cons l rest ih =>
    intro batch op h
    cases l with
    | blank => simp only [linesOps] at h; exact ih _ op h
    | bad => simp [linesOps] at h
    | json j =>
      cases hdec : decodeJ j with
      | none => simp [linesOps, hdec] at h
      | some v =>
        cases v
        case doc d =>
          cases hid : getField d "_id" with
          | none => simp [linesOps, hdec, hid] at h
          | some k =>
            by_cases hT : T ≤ (batch ++ [(k, d)]).length
            · simp only [linesOps, hdec, hid, hT, if_true, List.mem_append] at h
              rcases h with h | h
              · exact tagOps_name cname _ op h
              · exact ih _ op h
            · simp only [linesOps, hdec, hid, hT, if_false] at h
              exact ih _ op h
        all_goals simp [linesOps, hdec] at h

theorem restoreFileOps_name (T : Nat) (cname : String) (lines : List Line) :
    ∀ op ∈ restoreFileOps T cname lines, op.1 = cname := by
  intro op h
  unfold restoreFileOps at h
  cases hp : linesPending T lines [] with
  | none => rw [hp] at h; exact linesOps_name T cname lines [] op h
  | some b =>
    rw [hp] at h
    rcases List.mem_append.mp h with h | h
    · exact linesOps_name T cname lines [] op h
    · exact tagOps_name cname b op h

theorem restoreFilesOps_name (T : Nat) :
    ∀ (files : List (String × List Line)) (op : Op),
      op ∈ restoreFilesOps T files →
        ∃ f, f ∈ files ∧ strEnds f.1 ".json" = true ∧ op.1 = strDropRight f.1 5 := by
  intro files
  induction files with
  | nil => intro op h; simp [restoreFilesOps] at h
  | cons e rest ih =>
    obtain ⟨fname, lines⟩ := e
    intro op h
    cases hjson : strEnds fname ".json" with
    | false =>
      simp only [restoreFilesOps, hjson, Bool.false_eq_true, if_false] at h
      obtain ⟨f, hf, he, hn⟩ := ih op h
      exact ⟨f, List.mem_cons_of_mem _ hf, he, hn⟩
    | true =>
      simp only [restoreFilesOps, hjson, if_true] at h
      cases hp : linesPending T lines [] with
      | none =>
        rw [hp] at h
        exact ⟨(fname, lines), List.mem_cons_self _ _, hjson,
          restoreFileOps_name T _ lines op h⟩
      | some b =>
        rw [hp] at h
        rcases List.mem_append.mp h with h | h
        · exact ⟨(fname, lines), List.mem_cons_self _ _, hjson,
            restoreFileOps_name T _ lines op h⟩
        · obtain ⟨f, hf, he, hn⟩ := ih op h
          exact ⟨f, List.mem_cons_of_mem _ hf, he, hn⟩

/-- Claim C6: `restore_from_file` on an input path that is not an existing
directory fails immediately: it returns status 1, logs the descriptive
path error after the initial banner, performs no collection-level write
(destination unchanged) and issues no bulk_write at all. -/
theorem restore_path_validation :
    ∀ (T : Nat) (dbn p : String) (db0 : DB),
      restoreFromFile T dbn p none db0 =
        ((1 : Int),
          { db := db0, flushes := [],
            logs := [s!"Restoring database {dbn} from {p}",
                     s!"ERROR: {p} is not a directory."] }) := by
  intro T dbn p db0
  rfl

/-- Counterexample to claim C4: `restore_from_file` applies no
system-prefix filter.  With a dump file `system.users.json` present in the
input directory, the run writes the document into the system collection
`system.users` (and returns success). -/
theorem system_exclusion_restore_cex :
    (restoreFromFile 1000 "db" "dumpdir"
        (some [("system.users.json",
          [Line.json (encode (.doc (.field "_id" (.int 1) .nil)))])])
        emptyDB).2.db "system.users" (.int 1) =
      some (.field "_id" (.int 1) .nil) ∧
    strStarts "system.users" "system." = true := by
  constructor
  · rfl
  · rfl

/-- Claim C4 as amended: `direct_clone` and `dump_to_file` never process a
collection whose name carries the `system.` prefix — a clone leaves every
system-named destination collection untouched, and the dump directory
contains exactly one `<name>.json` file per non-system collection.
`restore_from_file` itself applies no system filter (see the
counterexample), but restoring a directory produced by `dump_to_file`
writes no system collection, because the dump never creates such a file. -/
theorem system_collection_exclusion :
    (∀ (T : Nat) (sn dn : String) (src : List (String × List BDoc)) (db0 : DB)
      (c : String), strStarts c "system." = true →
      (directClone T sn dn src db0).2.db c = db0 c) ∧
    (∀ (dbn p : String) (src : List (String × List BDoc)),
      (dumpToFile dbn p src).2.1 =
        (src.filter (fun e => !strStarts e.1 "system.")).map
          (fun e => (e.1 ++ ".json", dumpColl e.2))) ∧
    (∀ (T : Nat) (dbn p dn op2 : String) (src : List (String × List BDoc))
      (db0 : DB) (c : String), strStarts c "system." = true →
      (restoreFromFile T dbn p (some (dumpToFile dn op2 src).2.1) db0).2.db c
        = db0 c) := by
  refine ⟨?_, ?_, ?_⟩
  · intro T sn dn src db0 c hc
    rw [directClone_db]
    apply applyOps_untouched
    intro op hop
    intro heq
    have h := cloneCollsOps_nonsystem T src op hop
    rw [heq, hc] at h
    exact Bool.true_eq_false.mp h
  · intro dbn p src
    exact dumpToFile_files dbn p src
  · intro T dbn p dn op2 src db0 c hc
    rw [restoreFromFile_db]
    apply applyOps_untouched
    intro op hop
    intro heq
    obtain ⟨f, hf, hfe, hfn⟩ := restoreFilesOps_name T _ op hop
    rw [dumpToFile_files] at hf
    simp only [List.mem_map, List.mem_filter] at hf
    obtain ⟨e, ⟨hesrc, hens⟩, hfe2⟩ := hf
    have hname : op.1 = e.1 := by
      rw [hfn, ← hfe2]
      exact strDropRight_json e.1
    rw [heq] at hname
    rw [← hname] at hens
    simp [hc] at hens

/-- Witness for the amended C4 theorem at concrete inputs. -/
theorem system_collection_exclusion_witness :
    strStarts "system.profile" "system." = true ∧
    (directClone 1000 "s" "d" [("users", [])] emptyDB).2.db "system.profile"
      = emptyDB "system.profile" ∧
    (restoreFromFile 1000 "d" "p"
        (some (dumpToFile "s" "o" [("users", [])]).2.1) emptyDB).2.db "system.profile"
      = emptyDB "system.profile" :=
  ⟨by decide,
    system_collection_exclusion.1 1000 "s" "d" [("users", [])] emptyDB
      "system.profile" (by decide),
    system_collection_exclusion.2.2 1000 "d" "p" "s" "o" [("users", [])] emptyDB
      "system.profile" (by decide)⟩

/-! ### URI normalization -/

theorem cleanChars_id : ∀ l : List Char, listHasSub ['.', ':'] l = false → cleanChars l = l
  | [], _ => rfl
  | [_], _ => rfl
  | c1 :: c2 :: rest, h => by
    have hcopy := h
    have h2 : listHasSub ['.', ':'] (c2 :: rest) = false := by
      rw [listHasSub, Bool.or_eq_false_iff] at hcopy
      exact hcopy.2
    have h1 : ¬ (c1 = '.' ∧ c2 = ':') := by
      rintro ⟨ha, hb⟩
      subst ha; subst hb
      simp [listHasSub, listStarts] at h
    simp only [cleanChars, if_neg h1]
    rw [cleanChars_id (c2 :: rest) h2]

/-- Claim C8 as amended: `_clean_uri` is `uri.replace('.:', ':')` — it
rewrites every occurrence of `.:` to `:` anywhere in the descriptor (in
particular the documented before-the-port typo), and a descriptor with no
`.:` occurrence at all is passed to the connection step unchanged. -/
theorem clean_uri_normalization :
    (∀ uri : String, strHasSub uri ".:" = false → cleanUri uri = uri) ∧
    cleanUri "10.0.0.15.:27017" = "10.0.0.15:27017" := by
  constructor
  · intro uri h
    have hd : listHasSub ['.', ':'] uri.data = false := h
    have hc : cleanChars uri.data = uri.data := cleanChars_id uri.data hd
    simp only [cleanUri, hc]
  · decide

/-- Witness for the amended C8 theorem at a concrete descriptor. -/
theorem clean_uri_normalization_witness :
    strHasSub "mongodb://localhost:27017" ".:" = false ∧
    cleanUri "mongodb://localhost:27017" = "mongodb://localhost:27017" :=
  ⟨by decide, clean_uri_normalization.1 "mongodb://localhost:27017" (by decide)⟩

/-- Counterexample to claim C8: the rewrite is not limited to a trailing
separator before the port number.  This descriptor has its only `.:`
occurrence followed by a letter (no digit follows any `.:`), yet
`_clean_uri` still changes it. -/
theorem clean_uri_cex :
    cleanUri "mongodb://user.:pw@host:27017" ≠ "mongodb://user.:pw@host:27017" ∧
    cleanUri "mongodb://user.:pw@host:27017" = "mongodb://user:pw@host:27017" ∧
    dotColonDigit "mongodb://user.:pw@host:27017".data = false := by
  refine ⟨by decide, by decide, by decide⟩

/-! ### Dump-then-restore pipeline -/

theorem linesOps_complete (T : Nat) (cname : String) :
    ∀ (docs : List BDoc) (batch : List (BVal × BDoc)),
      (∀ d ∈ docs, wfB (.doc d) = true) →
      (∀ d ∈ docs, (getField d "_id").isSome = true) →
      ∃ b, linesPending T (dumpColl docs) batch = some b ∧
        linesOps T cname (dumpColl docs) batch ++ tagOps cname b =
          tagOps cname (batch ++ docs.map (fun d => (idOf d, d))) := by
  intro docs
  induction docs with
  | nil =>
    intro batch _ _
    exact ⟨batch, rfl, by simp [dumpColl, linesOps, tagOps]⟩
  | cons d rest ih =>
    intro batch hwf hid
    have hwfd : wfB (.doc d) = true := hwf d (List.mem_cons_self d rest)
    have hdec : decodeJ (encode (.doc d)) = some (.doc d) := decodeJ_encode _ hwfd
    obtain ⟨k, hk⟩ : ∃ k, getField d "_id" = some k :=
      Option.isSome_iff_exists.mp (hid d (List.mem_cons_self d rest))
    have hidOf : idOf d = k := by simp [idOf, hk]
    have hdc : dumpColl (d :: rest) = Line.json (encode (.doc d)) :: dumpColl rest := rfl
    have hwf2 : ∀ x ∈ rest, wfB (.doc x) = true :=
      fun x hx => hwf x (List.mem_cons_of_mem d hx)
    have hid2 : ∀ x ∈ rest, (getField x "_id").isSome = true :=
      fun x hx => hid x (List.mem_cons_of_mem d hx)
    by_cases hT : T ≤ (batch ++ [(k, d)]).length
    · obtain ⟨b, hpb, hops⟩ := ih [] hwf2 hid2
      refine ⟨b, ?_, ?_⟩
      · rw [hdc]
        simp only [linesPending, hdec, hk, hT, if_true]
        exact hpb
      · rw [hdc]
        simp only [linesOps, hdec, hk, hT, if_true]
        rw [List.append_assoc, hops]
        simp [tagOps, hidOf, List.map_append]
    · obtain ⟨b, hpb, hops⟩ := ih (batch ++ [(k, d)]) hwf2 hid2
      refine ⟨b, ?_, ?_⟩
      · rw [hdc]
        simp only [linesPending, hdec, hk, hT, if_false]
        exact hpb
      · rw [hdc]
        simp only [linesOps, hdec, hk, hT, if_false]
        rw [hops]
        simp [tagOps, hidOf, List.map_append]

theorem restoreFileOps_dump (T : Nat) (cname : String) (docs : List BDoc)
    (hwf : ∀ d ∈ docs, wfB (.doc d) = true)
    (hid : ∀ d ∈ docs, (getField d "_id").isSome = true) :
    restoreFileOps T cname (dumpColl docs) =
      tagOps cname (docs.map (fun d => (idOf d, d))) := by
  obtain ⟨b, hpb, hops⟩ := linesOps_complete T cname docs [] hwf hid
  unfold restoreFileOps
  rw [hpb]
  show linesOps T cname (dumpColl docs) [] ++ tagOps cname b =
    tagOps cname (docs.map (fun d => (idOf d, d)))
  rw [hops]
  simp

theorem restoreFilesOps_dump (T : Nat) :
    ∀ (src : List (String × List BDoc)),
      (∀ e ∈ src, ∀ d ∈ e.2, wfB (.doc d) = true ∧ (getField d "_id").isSome = true) →
      restoreFilesOps T ((src.filter (fun e => !strStarts e.1 "system.")).map
          (fun e => (e.1 ++ ".json", dumpColl e.2))) =
        (src.filter (fun e => !strStarts e.1 "system.")).flatMap
          (fun e => tagOps e.1 (e.2.map (fun d => (idOf d, d)))) := by
  intro src
  induction src with
  | nil => intro _; rfl
  | cons e rest ih =>
    intro h
    have he := h e (List.mem_cons_self e rest)
    have h2 : ∀ x ∈ rest, ∀ d ∈ x.2, wfB (.doc d) = true ∧ (getField d "_id").isSome = true :=
      fun x hx => h x (List.mem_cons_of_mem e hx)
    cases hsys : strStarts e.1 "system." with
    | true => simp only [List.filter_cons, hsys, Bool.not_true, if_false]; exact ih h2
    | false =>
      simp only [List.filter_cons, hsys, Bool.not_false, if_true, List.map_cons,
        List.flatMap_cons]
      obtain ⟨b, hpb, _⟩ := linesOps_complete T (strDropRight (e.1 ++ ".json") 5) e.2 []
        (fun d hd => (he d hd).1) (fun d hd => (he d hd).2)
      rw [restoreFilesOps, strEnds_json e.1]
      simp only [if_true, hpb]
      rw [strDropRight_json e.1,
        restoreFileOps_dump T e.1 e.2 (fun d hd => (he d hd).1) (fun d hd => (he d hd).2),
        ih h2]

theorem restoreFilesOk_dump (T : Nat) :
    ∀ (src : List (String × List BDoc)),
      (∀ e ∈ src, ∀ d ∈ e.2, wfB (.doc d) = true ∧ (getField d "_id").isSome = true) →
      restoreFilesOk T ((src.filter (fun e => !strStarts e.1 "system.")).map
          (fun e => (e.1 ++ ".json", dumpColl e.2))) = true := by
  intro src
  induction src with
  | nil => intro _; rfl
  | cons e rest ih =>
    intro h
    have he := h e (List.mem_cons_self e rest)
    have h2 : ∀ x ∈ rest, ∀ d ∈ x.2, wfB (.doc d) = true ∧ (getField d "_id").isSome = true :=
      fun x hx => h x (List.mem_cons_of_mem e hx)
    cases hsys : strStarts e.1 "system." with
    | true => simp only [List.filter_cons, hsys, Bool.not_true, if_false]; exact ih h2
    | false =>
      simp only [List.filter_cons, hsys, Bool.not_false, if_true, List.map_cons]
      rw [restoreFilesOk, strEnds_json e.1]
      simp only [if_true]
      obtain ⟨b, hpb, _⟩ := linesOps_complete T (strDropRight (e.1 ++ ".json") 5) e.2 []
        (fun d hd => (he d hd).1) (fun d hd => (he d hd).2)
      rw [hpb]
      exact ih h2

theorem applyOps_restrict :
    ∀ (ops : List Op) (db : DB) (c : String),
      applyOps db ops c = applyBatch (ops.filterMap
        (fun op => if op.1 = c then some op.2 else none)) (db c) := by
  intro ops
  induction ops with
  | nil => intro db c; rfl
  | cons op ops ih =>
    intro db c
    have hstep : applyOps db (op :: ops) = applyOps (applyOp db op) ops := rfl
    rw [hstep, ih]
    by_cases h : op.1 = c
    · subst h
      simp only [List.filterMap_cons, if_true]
      have happ : applyOp db op op.1 = upsert op.2.1 op.2.2 (db op.1) := by
        unfold applyOp updateColl
        rw [if_pos rfl]
      rw [happ]
      rfl
    · simp only [List.filterMap_cons, h, if_false]
      have happ : applyOp db op c = db c := by
        unfold applyOp updateColl
        rw [if_neg (fun hc => h hc.symm)]
      rw [happ]

theorem filterMap_sel_nil (c : String) :
    ∀ ops : List Op, (∀ op ∈ ops, op.1 ≠ c) →
      ops.filterMap (fun op => if op.1 = c then some op.2 else none) = [] := by
  intro ops
  induction ops with
  | nil => intro _; rfl
  | cons op ops ih =>
    intro h
    have h1 : op.1 ≠ c := h op (List.mem_cons_self op ops)
    simp only [List.filterMap_cons, h1, if_false]
    exact ih (fun o ho => h o (List.mem_cons_of_mem op ho))

theorem filterMap_sel_tagOps (c : String) :
    ∀ l : List (BVal × BDoc),
      (tagOps c l).filterMap (fun op => if op.1 = c then some op.2 else none) = l := by
  intro l
  induction l with
  | nil => rfl
  | cons p l ih =>
    simp only [tagOps, List.map_cons, List.filterMap_cons, if_true]
    simp only [tagOps] at ih
    rw [ih]

theorem dump_restore_lookup :
    ∀ (src : List (String × List BDoc)),
      (src.map Prod.fst).Nodup →
      ∀ e ∈ src,
        ((src.filter (fun x => !strStarts x.1 "system.")).flatMap
            (fun x => tagOps x.1 (x.2.map (fun d => (idOf d, d))))).filterMap
          (fun op => if op.1 = e.1 then some op.2 else none) =
        (if strStarts e.1 "system." then [] else e.2.map (fun d => (idOf d, d))) := by
  intro src
  induction src with
  | nil => intro _ e he; simp at he
  | cons x rest ih =>
    intro hnd e he
    rw [List.map_cons, List.nodup_cons] at hnd
    obtain ⟨hx, hnd2⟩ := hnd
    have hother : ∀ (c : String), c ∉ rest.map Prod.fst →
        ∀ op ∈ (rest.filter (fun y => !strStarts y.1 "system.")).flatMap
          (fun y => tagOps y.1 (y.2.map (fun d => (idOf d, d)))), op.1 ≠ c := by
      intro c hc op hop
      obtain ⟨y, hy, hopy⟩ := List.mem_flatMap.mp hop
      have hyname : op.1 = y.1 := tagOps_name y.1 _ op hopy
      have hyrest : y ∈ rest := (List.mem_filter.mp hy).1
      intro heq
      exact hc (heq ▸ hyname ▸ (List.mem_map_of_mem Prod.fst hyrest))
    rcases List.mem_cons.mp he with rfl | he2
    · cases hsys : strStarts e.1 "system." with
      | true =>
        simp only [List.filter_cons, hsys, Bool.not_true, if_false, if_true]
        exact filterMap_sel_nil e.1 _ (hother e.1 hx)
      | false =>
        simp only [List.filter_cons, hsys, Bool.not_false, if_true, List.flatMap_cons,
          Bool.false_eq_true, if_false]
        rw [List.filterMap_append, filterMap_sel_tagOps,
          filterMap_sel_nil e.1 _ (hother e.1 hx), List.append_nil]
    · have hne : x.1 ≠ e.1 := by
        intro heq
        exact hx (heq ▸ List.mem_map_of_mem Prod.fst he2)
      cases hsys : strStarts x.1 "system." with
      | true =>
        simp only [List.filter_cons, hsys, Bool.not_true, if_false]
        exact ih hnd2 e he2
      | false =>
        simp only [List.filter_cons, hsys, Bool.not_false, if_true, List.flatMap_cons]
        rw [List.filterMap_append,
          filterMap_sel_nil e.1 _ (fun op hop => by
            rw [tagOps_name x.1 _ op hop]; exact hne),
          List.nil_append]
        exact ih hnd2 e he2

/-- Claim C2: the serialization codec round-trips on every supported value
kind — null, boolean, integer, float, string, sequence, nested mapping and
the tagged extended types (timestamp, binary, object id) — where
"supported" means no mapping node carries a reserved key of the tagging
convention (on which the decode hook would dispatch instead of passing the
mapping through) and the extended values are ones the external types can
hold (timestamp fields below `2^32`, base64 payload text, 24-hex object
ids), exactly the forms the dump emits; dump file names append the fixed
`.json` suffix and restore recovers the collection name by stripping those
five characters; and `dump_to_file` followed by `restore_from_file` into an
empty destination succeeds and reproduces the source's exact document set
for every non-system collection (and writes nothing for system ones). -/
theorem codec_round_trip_and_dump_restore :
    (∀ v : BVal, wfB v = true → decodeJ (encode v) = some v) ∧
    (∀ c : String,
      strEnds (c ++ ".json") ".json" = true ∧ strDropRight (c ++ ".json") 5 = c) ∧
    (∀ (T : Nat) (sn op2 dn p : String) (src : List (String × List BDoc)),
      (∀ e ∈ src, ∀ d ∈ e.2, wfB (.doc d) = true ∧ (getField d "_id").isSome = true) →
      (src.map Prod.fst).Nodup →
      (restoreFromFile T dn p (some (dumpToFile sn op2 src).2.1) emptyDB).1 = 0 ∧
      ∀ e ∈ src,
        (restoreFromFile T dn p (some (dumpToFile sn op2 src).2.1) emptyDB).2.db e.1 =
          (if strStarts e.1 "system." then emptyColl else collContent e.2)) := by
  refine ⟨decodeJ_encode, fun c => ⟨strEnds_json c, strDropRight_json c⟩, ?_⟩
  intro T sn op2 dn p src hwf hnd
  rw [dumpToFile_files]
  constructor
  · rw [restoreFromFile_status, restoreFilesOk_dump T src hwf]
    simp
  · intro e he
    rw [restoreFromFile_db, restoreFilesOps_dump T src hwf, applyOps_restrict,
      dump_restore_lookup src hnd e he]
    cases hsys : strStarts e.1 "system." with
    | true => simp only [if_true]; rfl
    | false => simp only [Bool.false_eq_true, if_false]; rfl

/-- Witness for C2 at concrete inputs: a value exercising nested sequences,
floats, timestamps and binary blobs round-trips, and a one-collection
dump/restore of two documents reproduces the collection. -/
theorem codec_round_trip_and_dump_restore_witness :
    (wfB (.doc (.field "a"
        (.arr (.cons (.int 1) (.cons (.timestamp 5 7)
          (.cons (.binary 3 "AAEC") .nil))))
        (.field "b" (.float (1 / 2)) (.field "c" .null .nil)))) = true ∧
      decodeJ (encode (.doc (.field "a"
        (.arr (.cons (.int 1) (.cons (.timestamp 5 7)
          (.cons (.binary 3 "AAEC") .nil))))
        (.field "b" (.float (1 / 2)) (.field "c" .null .nil))))) =
        some (.doc (.field "a"
        (.arr (.cons (.int 1) (.cons (.timestamp 5 7)
          (.cons (.binary 3 "AAEC") .nil))))
        (.field "b" (.float (1 / 2)) (.field "c" .null .nil))))) ∧
    ((restoreFromFile 1000 "dst" "dir"
        (some (dumpToFile "src" "dir"
          [("users", [.field "_id" (.int 1) (.field "name" (.str "A") .nil),
                      .field "_id" (.int 2) (.field "name" (.str "B") .nil)])]).2.1)
        emptyDB).1 = 0 ∧
      ∀ e ∈ [(("users" : String),
          [BDoc.field "_id" (.int 1) (.field "name" (.str "A") .nil),
           BDoc.field "_id" (.int 2) (.field "name" (.str "B") .nil)])],
        (restoreFromFile 1000 "dst" "dir"
          (some (dumpToFile "src" "dir"
            [("users", [.field "_id" (.int 1) (.field "name" (.str "A") .nil),
                        .field "_id" (.int 2) (.field "name" (.str "B") .nil)])]).2.1)
          emptyDB).2.db e.1 =
          (if strStarts e.1 "system." then emptyColl else collContent e.2)) :=
  ⟨⟨by decide,
    codec_round_trip_and_dump_restore.1 _ (by decide)⟩,
    codec_round_trip_and_dump_restore.2.2 1000 "src" "dir" "dst" "dir"
      [("users", [.field "_id" (.int 1) (.field "name" (.str "A") .nil),
                  .field "_id" (.int 2) (.field "name" (.str "B") .nil)])]
      (by decide) (by decide)⟩

/-! ### Flush-trace arithmetic -/

theorem flushSizesGo_sum (T : Nat) :
    ∀ (n r : Nat), (flushSizesGo T n r).sum + pendingGo T n r = r + n := by
  intro n
  induction n with
  | zero => intro r; simp [flushSizesGo, pendingGo]
  | succ n ih =>
    intro r
    by_cases hT : T ≤ r + 1
    · simp only [flushSizesGo, pendingGo, hT, if_true, List.sum_cons]
      have := ih 0
      omega
    · simp only [flushSizesGo, pendingGo, hT, if_false]
      have := ih (r + 1)
      omega

theorem flushSizesGo_bound (T : Nat) (hT : 0 < T) :
    ∀ (n r : Nat), r < T →
      (∀ s ∈ flushSizesGo T n r, s ≤ T) ∧ pendingGo T n r < T := by
  intro n
  induction n with
  | zero => intro r hr; simp [flushSizesGo, pendingGo, hr]
  | succ n ih =>
    intro r hr
    by_cases hle : T ≤ r + 1
    · simp only [flushSizesGo, pendingGo, hle, if_true]
      obtain ⟨h1, h2⟩ := ih 0 hT
      refine ⟨?_, h2⟩
      intro s hs
      rcases List.mem_cons.mp hs with rfl | hs2
      · omega
      · exact h1 s hs2
    · simp only [flushSizesGo, pendingGo, hle, if_false]
      exact ih (r + 1) (by omega)

theorem flushGo_small (T : Nat) :
    ∀ (m r cnt : Nat), m + r < T →
      flushSizesGo T m r = [] ∧ pendingGo T m r = m + r ∧
      flushCountsGo T m r cnt = [] := by
  intro m
  induction m with
  | zero => intro r cnt _; simp [flushSizesGo, pendingGo, flushCountsGo]
  | succ m ih =>
    intro r cnt h
    have hle : ¬ T ≤ r + 1 := by omega
    simp only [flushSizesGo, pendingGo, flushCountsGo, hle, if_false]
    obtain ⟨h1, h2, h3⟩ := ih (r + 1) cnt (by omega)
    exact ⟨h1, by omega, h3⟩

theorem flushGo_reach (T : Nat) :
    ∀ (m r k cnt : Nat), 0 < m → m + r = T →
      flushSizesGo T (m + k) r = T :: flushSizesGo T k 0 ∧
      pendingGo T (m + k) r = pendingGo T k 0 ∧
      flushCountsGo T (m + k) r cnt = (cnt + T) :: flushCountsGo T k 0 (cnt + T) := by
  intro m
  induction m with
  | zero => intro r k cnt h0 _; omega
  | succ m ih =>
    intro r k cnt _ hsum
    cases Nat.eq_zero_or_pos m with
    | inl hm0 =>
      subst hm0
      have hT : T ≤ r + 1 := by omega
      have hr1 : r + 1 = T := by omega
      have harith : 1 + k = k + 1 := by omega
      rw [harith]
      simp only [flushSizesGo, pendingGo, flushCountsGo, hT, if_true, hr1]
      simp
    | inr hmpos =>
      have harith : m + 1 + k = (m + k) + 1 := by omega
      rw [harith]
      have hle : ¬ T ≤ r + 1 := by omega
      simp only [flushSizesGo, pendingGo, flushCountsGo, hle, if_false]
      exact ih (r + 1) k cnt hmpos (by omega)

/-! ### Full characterization of one collection of direct_clone -/

theorem cloneDocs_char (T : Nat) (cname : String) :
    ∀ (docs : List BDoc) (batch : List (BVal × BDoc)) (count : Nat) (st : St),
      (∀ d ∈ docs, (getField d "_id").isSome = true) →
      ∃ batch2 st2,
        cloneDocs T cname docs batch count st =
          .ok (batch2, count + (flushSizesGo T docs.length batch.length).sum, st2) ∧
        batch2.length = pendingGo T docs.length batch.length ∧
        st2.flushes = st.flushes ++
          (flushSizesGo T docs.length batch.length).map (fun s => (cname, s)) ∧
        st2.logs = st.logs ++
          (flushCountsGo T docs.length batch.length count).map
            (fun c2 => s!"  Processed {c2} documents (upserts)...") := by
  intro docs
  induction docs with
  | nil =>
    intro batch count st _
    refine ⟨batch, st, ?_, ?_, ?_, ?_⟩ <;>
      simp [cloneDocs, flushSizesGo, pendingGo, flushCountsGo]
  | cons d rest ih =>
    intro batch count st hid
    obtain ⟨k, hk⟩ := Option.isSome_iff_exists.mp (hid d (List.mem_cons_self d rest))
    have hid2 : ∀ x ∈ rest, (getField x "_id").isSome = true :=
      fun x hx => hid x (List.mem_cons_of_mem d hx)
    have hlen : (batch ++ [(k, d)]).length = batch.length + 1 := by simp
    by_cases hT : T ≤ batch.length + 1
    · have hgoal : cloneDocs T cname (d :: rest) batch count st =
          cloneDocs T cname rest [] (count + (batch.length + 1))
            (logMsg s!"  Processed {count + (batch.length + 1)} documents (upserts)..."
              (bulkWrite cname (batch ++ [(k, d)]) st)) := by
        simp only [cloneDocs, hk, hlen]
        rw [if_pos hT]
      obtain ⟨b2, st3, he, hp, hf, hl⟩ := ih []
        (count + (batch.length + 1))
        (logMsg s!"  Processed {count + (batch.length + 1)} documents (upserts)..."
          (bulkWrite cname (batch ++ [(k, d)]) st)) hid2
      simp only [List.length_nil] at he hp hf hl
      have hsum : count + (flushSizesGo T (d :: rest).length batch.length).sum =
          count + (batch.length + 1) + (flushSizesGo T rest.length 0).sum := by
        simp only [List.length_cons, flushSizesGo, hT, if_true, List.sum_cons]
        omega
      refine ⟨b2, st3, ?_, ?_, ?_, ?_⟩
      · rw [hgoal, hsum]
        exact he
      · rw [hp]
        simp only [List.length_cons, pendingGo, hT, if_true]
      · rw [hgoal] at *
        rw [hf]
        simp only [logMsg, bulkWrite, hlen, List.length_cons, flushSizesGo, hT,
          if_true, List.map_cons]
        simp [List.append_assoc]
      · rw [hl]
        simp only [logMsg, bulkWrite, List.length_cons, flushCountsGo, hT,
          if_true, List.map_cons]
        simp [List.append_assoc]
    · have hgoal : cloneDocs T cname (d :: rest) batch count st =
          cloneDocs T cname rest (batch ++ [(k, d)]) count st := by
        simp only [cloneDocs, hk, hlen]
        rw [if_neg hT]
      obtain ⟨b2, st3, he, hp, hf, hl⟩ := ih (batch ++ [(k, d)]) count st hid2
      rw [hlen] at he hp hf hl
      refine ⟨b2, st3, ?_, ?_, ?_, ?_⟩
      · rw [hgoal]
        simp only [List.length_cons, flushSizesGo, hT, if_false]
        exact he
      · rw [hp]
        simp only [List.length_cons, pendingGo, hT, if_false]
      · rw [hf]
        simp only [List.length_cons, flushSizesGo, hT, if_false]
      · rw [hl]
        simp only [List.length_cons, flushCountsGo, hT, if_false]

theorem cloneColl_char (T : Nat) (cname : String) (docs : List BDoc) (st : St)
    (hid : ∀ d ∈ docs, (getField d "_id").isSome = true) :
    ∃ st2, cloneColl T cname docs st = .ok st2 ∧
      st2.flushes = st.flushes ++ (collFlushSizes T docs.length).map (fun s => (cname, s)) ∧
      st2.logs = st.logs ++
        (flushCountsGo T docs.length 0 0).map
          (fun c2 => s!"  Processed {c2} documents (upserts)...") ++
        (if pendingGo T docs.length 0 = 0 then []
         else [s!"  Finished {cname} with {docs.length} documents."]) := by
  obtain ⟨b2, st3, he, hp, hf, hl⟩ := cloneDocs_char T cname docs [] 0 st hid
  simp only [List.length_nil] at he hp hf hl
  unfold cloneColl
  rw [he]
  by_cases hpend : pendingGo T docs.length 0 = 0
  · have hb2 : b2 = [] := List.length_eq_zero.mp (by rw [hp, hpend])
    subst hb2
    refine ⟨st3, by simp, ?_, ?_⟩
    · rw [hf]
      simp [collFlushSizes, hpend]
    · rw [hl]
      simp [hpend]
  · have hb2f : b2.isEmpty = false := by
      cases b2 with
      | nil => exact absurd hp.symm (by simpa using hpend)
      | cons a l => simp
    simp only [hb2f, Bool.false_eq_true, if_false]
    refine ⟨_, rfl, ?_, ?_⟩
    · simp only [logMsg, bulkWrite]
      rw [hf, hp]
      simp [collFlushSizes, hpend, List.append_assoc]
    · simp only [logMsg, bulkWrite]
      rw [hl]
      have hnum : 0 + (flushSizesGo T docs.length 0).sum + b2.length = docs.length := by
        have := flushSizesGo_sum T docs.length 0
        rw [hp]
        omega
      rw [hnum]
      simp [hpend, List.append_assoc]

theorem directClone_single (T : Nat) (sn dn cname : String) (docs : List BDoc)
    (db0 : DB) (hsys : strStarts cname "system." = false)
    (hid : ∀ d ∈ docs, (getField d "_id").isSome = true) :
    (directClone T sn dn [(cname, docs)] db0).1 = 0 ∧
    (directClone T sn dn [(cname, docs)] db0).2.flushes =
      (collFlushSizes T docs.length).map (fun s => (cname, s)) ∧
    (directClone T sn dn [(cname, docs)] db0).2.logs =
      [s!"Starting direct clone from {sn} to {dn}",
       s!"Cloning collection: {cname}"] ++
      (flushCountsGo T docs.length 0 0).map
        (fun c2 => s!"  Processed {c2} documents (upserts)...") ++
      (if pendingGo T docs.length 0 = 0 then []
       else [s!"  Finished {cname} with {docs.length} documents."]) ++
      ["Direct clone completed successfully."] := by
  obtain ⟨st2, he, hf, hl⟩ := cloneColl_char T cname docs
    (logMsg s!"Cloning collection: {cname}"
      { db := db0, flushes := [],
        logs := [s!"Starting direct clone from {sn} to {dn}"] }) hid
  have hcolls : cloneColls T [(cname, docs)]
      { db := db0, flushes := [],
        logs := [s!"Starting direct clone from {sn} to {dn}"] } = .ok st2 := by
    simp only [cloneColls, hsys, Bool.false_eq_true, if_false]
    rw [he]
  simp only [directClone, hcolls]
  simp only [logMsg] at hf hl
  refine ⟨?_, ?_, ?_⟩
  · trivial
  · simp only [logMsg]
    rw [hf]
    simp
  · simp only [logMsg]
    rw [hl]
    simp [List.append_assoc]

/-! ### Flush sizes never exceed the threshold -/

theorem cloneDocs_bound (T : Nat) (cname : String) (hT : 0 < T) :
    ∀ (docs : List BDoc) (batch : List (BVal × BDoc)) (count : Nat) (st : St),
      batch.length < T →
      (∀ f ∈ st.flushes, f.2 ≤ T) →
      (∀ f ∈ (stOfDocs (cloneDocs T cname docs batch count st)).flushes, f.2 ≤ T) ∧
      (match cloneDocs T cname docs batch count st with
       | .ok (b, _, _) => b.length < T
       | .error _ => True) := by
  intro docs
  induction docs with
  | nil =>
    intro batch count st hb hst
    exact ⟨hst, hb⟩
  | cons d rest ih =>
    intro batch count st hb hst
    cases hid : getField d "_id" with
    | none => simp only [cloneDocs, hid]; exact ⟨hst, trivial⟩
    | some k =>
      have hlen : (batch ++ [(k, d)]).length = batch.length + 1 := by simp
      by_cases hTle : T ≤ batch.length + 1
      · have hgoal : cloneDocs T cname (d :: rest) batch count st =
            cloneDocs T cname rest [] (count + (batch.length + 1))
              (logMsg s!"  Processed {count + (batch.length + 1)} documents (upserts)..."
                (bulkWrite cname (batch ++ [(k, d)]) st)) := by
          simp only [cloneDocs, hid, hlen]
          rw [if_pos hTle]
        rw [hgoal]
        apply ih
        · simpa using hT
        · intro f hf
          simp only [logMsg, bulkWrite, hlen, List.mem_append, List.mem_singleton] at hf
          rcases hf with hf | rfl
          · exact hst f hf
          · simpa using Nat.succ_le_of_lt hb
      · have hgoal : cloneDocs T cname (d :: rest) batch count st =
            cloneDocs T cname rest (batch ++ [(k, d)]) count st := by
          simp only [cloneDocs, hid, hlen]
          rw [if_neg hTle]
        rw [hgoal]
        apply ih
        · omega
        · exact hst

theorem cloneColl_bound (T : Nat) (cname : String) (hT : 0 < T)
    (docs : List BDoc) (st : St) (hst : ∀ f ∈ st.flushes, f.2 ≤ T) :
    ∀ f ∈ (stOfRun (cloneColl T cname docs st)).flushes, f.2 ≤ T := by
  obtain ⟨h1, h2⟩ := cloneDocs_bound T cname hT docs [] 0 st (by simpa using hT) hst
  unfold cloneColl
  cases hres : cloneDocs T cname docs [] 0 st with
  | error e =>
    rw [hres] at h1
    simpa [stOfDocs, stOfRun] using h1
  | ok tri =>
    obtain ⟨b, c, st3⟩ := tri
    rw [hres] at h1 h2
    simp only [stOfDocs] at h1
    cases hbe : b.isEmpty with
    | true => simpa [stOfRun, hbe] using h1
    | false =>
      simp only [hbe, Bool.false_eq_true, if_false, stOfRun, logMsg, bulkWrite]
      intro f hf
      rcases List.mem_append.mp hf with hf | hf
      · exact h1 f hf
      · rcases List.mem_singleton.mp hf with rfl
        simpa using Nat.le_of_lt h2

theorem cloneColls_bound (T : Nat) (hT : 0 < T) :
    ∀ (src : List (String × List BDoc)) (st : St),
      (∀ f ∈ st.flushes, f.2 ≤ T) →
      ∀ f ∈ (stOfRun (cloneColls T src st)).flushes, f.2 ≤ T := by
  intro src
  induction src with
  | nil => intro st hst; exact hst
  | cons e rest ih =>
    obtain ⟨cname, docs⟩ := e
    intro st hst
    cases hsys : strStarts cname "system." with
    | true => simp only [cloneColls, hsys, if_true]; exact ih st hst
    | false =>
      simp only [cloneColls, hsys, Bool.false_eq_true, if_false]
      have hcl := cloneColl_bound T cname hT docs
        (logMsg s!"Cloning collection: {cname}" st) (by simpa [logMsg] using hst)
      cases hres : cloneColl T cname docs (logMsg s!"Cloning collection: {cname}" st) with
      | error e2 =>
        rw [hres] at hcl
        simpa [stOfRun] using hcl
      | ok st2 =>
        rw [hres] at hcl
        simp only [stOfRun] at hcl
        exact ih st2 hcl

theorem directClone_bound (T : Nat) (sn dn : String) (src : List (String × List BDoc))
    (db0 : DB) (hT : 0 < T) :
    ∀ f ∈ (directClone T sn dn src db0).2.flushes, f.2 ≤ T := by
  have h := cloneColls_bound T hT src
    { db := db0, flushes := [],
      logs := [s!"Starting direct clone from {sn} to {dn}"] } (by simp)
  simp only [directClone]
  split
  · next st hres => rw [hres] at h; simpa [stOfRun, logMsg] using h
  · next e st hres => rw [hres] at h; simpa [stOfRun, logMsg] using h

/-- Claim C3: batching boundary of `direct_clone` with threshold `T`
(`self.batch_size`, default 1000).  A collection of exactly `T` documents
is written in one bulk_write of size `T`; `T + 1` documents in a batch of
`T` then a batch of `1`; `T − 1` documents in one batch of `T − 1`.  In
every run no flushed batch exceeds `T` operations, and the trace of one
collection sums to the whole collection — the last partial batch is always
flushed before the operation advances. -/
theorem batching_boundary :
    (∀ (T : Nat) (sn dn cname : String) (docs : List BDoc) (db0 : DB),
      0 < T → strStarts cname "system." = false →
      (∀ d ∈ docs, (getField d "_id").isSome = true) →
      (docs.length = T →
        (directClone T sn dn [(cname, docs)] db0).2.flushes = [(cname, T)]) ∧
      (docs.length = T + 1 →
        (directClone T sn dn [(cname, docs)] db0).2.flushes = [(cname, T), (cname, 1)]) ∧
      (2 ≤ T → docs.length = T - 1 →
        (directClone T sn dn [(cname, docs)] db0).2.flushes = [(cname, T - 1)]) ∧
      ((directClone T sn dn [(cname, docs)] db0).2.flushes.map Prod.snd).sum =
        docs.length) ∧
    (∀ (T : Nat) (sn dn : String) (src : List (String × List BDoc)) (db0 : DB),
      0 < T → ∀ f ∈ (directClone T sn dn src db0).2.flushes, f.2 ≤ T) := by
  constructor
  · intro T sn dn cname docs db0 hT hsys hid
    obtain ⟨_, hf, _⟩ := directClone_single T sn dn cname docs db0 hsys hid
    refine ⟨?_, ?_, ?_, ?_⟩
    · intro hn
      rw [hf, hn]
      obtain ⟨h1, h2, _⟩ := flushGo_reach T T 0 0 0 hT (by omega)
      simp only [Nat.add_zero] at h1 h2
      simp [collFlushSizes, h1, h2, flushSizesGo, pendingGo]
    · intro hn
      rw [hf, hn]
      obtain ⟨h1, h2, _⟩ := flushGo_reach T T 0 1 0 hT (by omega)
      rw [collFlushSizes, h1, h2]
      by_cases hT1 : T ≤ 1
      · have : T = 1 := by omega
        subst this
        simp [flushSizesGo, pendingGo]
      · simp [flushSizesGo, pendingGo, hT1]
    · intro hT2 hn
      rw [hf, hn]
      obtain ⟨h1, h2, _⟩ := flushGo_small T (T - 1) 0 0 (by omega)
      rw [collFlushSizes, h1, h2]
      have h3 : ¬ (T - 1 + 0 = 0) := by omega
      have h4 : ¬ (T - 1 = 0) := by omega
      simp [h3, h4]
    · rw [hf]
      have hsum := flushSizesGo_sum T docs.length 0
      simp only [List.map_map, collFlushSizes]
      by_cases hp : pendingGo T docs.length 0 = 0
      · simp [hp, Function.comp]
        omega
      · simp [hp, Function.comp]
        omega
  · intro T sn dn src db0 hT
    exact directClone_bound T sn dn src db0 hT

/-- Witness for C3 at `T = 2` with collections of 2, 3 and 1 documents. -/
theorem batching_boundary_witness :
    (0 < 2 ∧ strStarts "users" "system." = false ∧
      (∀ d ∈ [BDoc.field "_id" (.int 1) .nil, BDoc.field "_id" (.int 2) .nil],
        (getField d "_id").isSome = true) ∧
      (directClone 2 "s" "d"
        [("users", [BDoc.field "_id" (.int 1) .nil, BDoc.field "_id" (.int 2) .nil])]
        emptyDB).2.flushes = [("users", 2)]) ∧
    (directClone 2 "s" "d"
      [("users", [BDoc.field "_id" (.int 1) .nil, BDoc.field "_id" (.int 2) .nil,
                  BDoc.field "_id" (.int 3) .nil])]
      emptyDB).2.flushes = [("users", 2), ("users", 1)] ∧
    (directClone 2 "s" "d" [("users", [BDoc.field "_id" (.int 1) .nil])]
      emptyDB).2.flushes = [("users", 1)] := by
  refine ⟨⟨by decide, by decide, by decide, ?_⟩, ?_, ?_⟩
  · exact ((batching_boundary.1 2 "s" "d" "users"
      [BDoc.field "_id" (.int 1) .nil, BDoc.field "_id" (.int 2) .nil]
      emptyDB (by decide) (by decide) (by decide)).1 (by decide))
  · exact ((batching_boundary.1 2 "s" "d" "users"
      [BDoc.field "_id" (.int 1) .nil, BDoc.field "_id" (.int 2) .nil,
       BDoc.field "_id" (.int 3) .nil]
      emptyDB (by decide) (by decide) (by decide)).2.1 (by decide))
  · exact ((batching_boundary.1 2 "s" "d" "users"
      [BDoc.field "_id" (.int 1) .nil]
      emptyDB (by decide) (by decide) (by decide)).2.2.1 (by decide) (by decide))

/-! ### Progress messages per flush -/

theorem flushCounts_partial_sums (T : Nat) :
    ∀ (n r cnt : Nat),
      flushCountsGo T n r cnt =
        ((flushSizesGo T n r).scanl (fun a b => a + b) cnt).tail := by
  intro n
  induction n with
  | zero => intro r cnt; simp [flushCountsGo, flushSizesGo]
  | succ n ih =>
    intro r cnt
    by_cases hT : T ≤ r + 1
    · simp only [flushCountsGo, flushSizesGo, hT, if_true, List.scanl_cons,
        List.tail_cons]
      rw [ih]
      have hL : List.scanl (fun a b => a + b) (cnt + (r + 1)) (flushSizesGo T n 0) =
          (cnt + (r + 1)) ::
            (List.scanl (fun a b => a + b) (cnt + (r + 1)) (flushSizesGo T n 0)).tail := by
        cases flushSizesGo T n 0 <;> simp [List.scanl]
      rw [List.singleton_append, List.tail_cons]
      conv_rhs => rw [hL]
    · simp only [flushCountsGo, flushSizesGo, hT, if_false]
      exact ih (r + 1) cnt

/-- Counterexample to claim C9: a full-batch (mid-loop) flush emits only
`  Processed <count> documents (upserts)...`, which does not name the
collection.  With the default threshold 1000 and a 1000-document
collection `users`, the run performs exactly one flush, yet no log line
contains both the collection name and the cumulative count. -/
theorem flush_progress_message_cex :
    (directClone 1000 "s" "d"
        [("users", List.replicate 1000 (BDoc.field "_id" (.int 1) .nil))]
        emptyDB).2.flushes = [("users", 1000)] ∧
    ∀ m ∈ (directClone 1000 "s" "d"
        [("users", List.replicate 1000 (BDoc.field "_id" (.int 1) .nil))]
        emptyDB).2.logs,
      ¬(strHasSub m "users" = true ∧ strHasSub m "1000" = true) := by
  have hid : ∀ d ∈ List.replicate 1000 (BDoc.field "_id" (.int 1) .nil),
      (getField d "_id").isSome = true := by
    intro d hd
    rw [List.eq_of_mem_replicate hd]
    decide
  obtain ⟨_, hf, hl⟩ := directClone_single 1000 "s" "d" "users" _ emptyDB (by decide) hid
  obtain ⟨h1, h2, h3⟩ := flushGo_reach 1000 1000 0 0 0 (by decide) (by decide)
  simp only [Nat.add_zero, Nat.zero_add] at h1 h2 h3
  have h2b : pendingGo 1000 1000 0 = 0 := by rw [h2]; rfl
  have h1b : flushSizesGo 1000 1000 0 = [1000] := by rw [h1]; rfl
  have h3b : flushCountsGo 1000 1000 0 0 = [1000] := by rw [h3]; rfl
  constructor
  · rw [hf, List.length_replicate, collFlushSizes, h1b, h2b]
    simp
  · rw [List.length_replicate, h3b, h2b] at hl
    rw [hl]
    decide

/-- Claim C9 as amended: flushing an empty pending set is a no-op (an empty
collection produces no bulk_write and no flush message; a collection whose
size is an exact multiple of the threshold triggers no remainder flush);
after every successful flush the pending set is cleared and a progress
message with the cumulative count is emitted — the cumulative counts are
exactly the partial sums of the flush sizes — but only the final
remainder-flush message also names the collection; the mid-loop message
carries the count alone. -/
theorem flush_contract :
    (∀ (T : Nat) (sn dn cname : String) (db0 : DB),
      strStarts cname "system." = false →
      (directClone T sn dn [(cname, [])] db0).2.flushes = [] ∧
      (directClone T sn dn [(cname, [])] db0).2.logs =
        [s!"Starting direct clone from {sn} to {dn}",
         s!"Cloning collection: {cname}",
         "Direct clone completed successfully."]) ∧
    (∀ (T : Nat) (sn dn cname : String) (docs : List BDoc) (db0 : DB),
      strStarts cname "system." = false →
      (∀ d ∈ docs, (getField d "_id").isSome = true) →
      (directClone T sn dn [(cname, docs)] db0).2.flushes =
        (collFlushSizes T docs.length).map (fun s => (cname, s)) ∧
      (directClone T sn dn [(cname, docs)] db0).2.logs =
        [s!"Starting direct clone from {sn} to {dn}",
         s!"Cloning collection: {cname}"] ++
        (flushCountsGo T docs.length 0 0).map
          (fun c2 => s!"  Processed {c2} documents (upserts)...") ++
        (if pendingGo T docs.length 0 = 0 then []
         else [s!"  Finished {cname} with {docs.length} documents."]) ++
        ["Direct clone completed successfully."]) ∧
    (∀ (T n cnt r : Nat),
      flushCountsGo T n r cnt =
        ((flushSizesGo T n r).scanl (fun a b => a + b) cnt).tail) := by
  refine ⟨?_, ?_, ?_⟩
  · intro T sn dn cname db0 hsys
    obtain ⟨_, hf, hl⟩ := directClone_single T sn dn cname [] db0 hsys (by simp)
    constructor
    · rw [hf]
      simp [collFlushSizes, flushSizesGo, pendingGo]
    · rw [hl]
      simp [flushCountsGo, pendingGo, flushSizesGo]
  · intro T sn dn cname docs db0 hsys hid
    obtain ⟨_, hf, hl⟩ := directClone_single T sn dn cname docs db0 hsys hid
    exact ⟨hf, hl⟩
  · intro T n cnt r
    exact flushCounts_partial_sums T n r cnt

/-- Witness for the amended C9 theorem at concrete inputs. -/
theorem flush_contract_witness :
    strStarts "users" "system." = false ∧
    (directClone 5 "s" "d" [("users", [])] emptyDB).2.flushes = [] ∧
    (∀ d ∈ [BDoc.field "_id" (.int 1) .nil], (getField d "_id").isSome = true) ∧
    (directClone 5 "s" "d" [("users", [BDoc.field "_id" (.int 1) .nil])]
      emptyDB).2.flushes =
      (collFlushSizes 5 [BDoc.field "_id" (.int 1) .nil].length).map
        (fun s => ("users", s)) :=
  ⟨by decide,
    (flush_contract.1 5 "s" "d" "users" emptyDB (by decide)).1,
    by decide,
    (flush_contract.2.1 5 "s" "d" "users" [BDoc.field "_id" (.int 1) .nil]
      emptyDB (by decide) (by decide)).1⟩

/-! ### The error boundary logs exactly one ERROR line -/

theorem listStarts_append_left :
    ∀ (p l1 l2 : List Char), p.length ≤ l1.length →
      listStarts p (l1 ++ l2) = listStarts p l1 := by
  intro p
  induction p with
  | nil => intro l1 l2 _; rfl
  | cons a as ih =>
    intro l1 l2 h
    cases l1 with
    | nil => simp at h
    | cons b bs =>
      simp only [List.cons_append, listStarts, List.append_eq]
      rw [ih bs l2 (by simpa using h)]

theorem isErr_ext (a x : String) (ha : isErrLine a = false)
    (h7 : 7 ≤ a.data.length) :
    isErrLine (a ++ x) = false ∧ 7 ≤ (a ++ x).data.length := by
  constructor
  · rw [← ha]
    simp only [isErrLine, String.data_append]
    exact listStarts_append_left errChars a.data x.data (by simpa [errChars] using h7)
  · simp only [String.data_append, List.length_append]
    omega

theorem isErrTrue_ext (a x : String) (ha : isErrLine a = true)
    (h7 : 7 ≤ a.data.length) :
    isErrLine (a ++ x) = true ∧ 7 ≤ (a ++ x).data.length := by
  constructor
  · rw [← ha]
    simp only [isErrLine, String.data_append]
    exact listStarts_append_left errChars a.data x.data (by simpa [errChars] using h7)
  · simp only [String.data_append, List.length_append]
    omega

theorem errCount_append (l1 l2 : List String) :
    errCount (l1 ++ l2) = errCount l1 + errCount l2 := by
  simp [errCount, List.countP_append]

theorem errCount_snoc_false (l : List String) (m : String)
    (hm : isErrLine m = false) : errCount (l ++ [m]) = errCount l := by
  simp [errCount, List.countP_append, List.countP_cons, hm]

theorem errCount_snoc_true (l : List String) (m : String)
    (hm : isErrLine m = true) : errCount (l ++ [m]) = errCount l + 1 := by
  simp [errCount, List.countP_append, List.countP_cons, hm]

theorem notErr_processed (c2 : Nat) :
    isErrLine s!"  Processed {c2} documents (upserts)..." = false := by
  have h1 := isErr_ext (toString "  Processed ") (toString c2) (by decide) (by decide)
  exact (isErr_ext _ (toString " documents (upserts)...") h1.1 h1.2).1

theorem notErr_imported (c2 : Nat) :
    isErrLine s!"  Imported {c2} documents (upserts)..." = false := by
  have h1 := isErr_ext (toString "  Imported ") (toString c2) (by decide) (by decide)
  exact (isErr_ext _ (toString " documents (upserts)...") h1.1 h1.2).1

theorem notErr_finished (cname : String) (c2 : Nat) :
    isErrLine s!"  Finished {cname} with {c2} documents." = false := by
  have h1 := isErr_ext (toString "  Finished ") (toString cname) (by decide) (by decide)
  have h2 := isErr_ext _ (toString " with ") h1.1 h1.2
  have h3 := isErr_ext _ (toString c2) h2.1 h2.2
  exact (isErr_ext _ (toString " documents.") h3.1 h3.2).1

theorem notErr_cloning (cname : String) :
    isErrLine s!"Cloning collection: {cname}" = false := by
  have h1 := isErr_ext (toString "Cloning collection: ") (toString cname)
    (by decide) (by decide)
  exact (isErr_ext _ (toString "") h1.1 h1.2).1

theorem notErr_importing (cname : String) :
    isErrLine s!"Importing collection: {cname}" = false := by
  have h1 := isErr_ext (toString "Importing collection: ") (toString cname)
    (by decide) (by decide)
  exact (isErr_ext _ (toString "") h1.1 h1.2).1

theorem notErr_exporting (cname : String) :
    isErrLine s!"Exporting collection: {cname}" = false := by
  have h1 := isErr_ext (toString "Exporting collection: ") (toString cname)
    (by decide) (by decide)
  exact (isErr_ext _ (toString "") h1.1 h1.2).1

theorem notErr_start (sn dn : String) :
    isErrLine s!"Starting direct clone from {sn} to {dn}" = false := by
  have h1 := isErr_ext (toString "Starting direct clone from ") (toString sn)
    (by decide) (by decide)
  have h2 := isErr_ext _ (toString " to ") h1.1 h1.2
  have h3 := isErr_ext _ (toString dn) h2.1 h2.2
  exact (isErr_ext _ (toString "") h3.1 h3.2).1

theorem notErr_dumping (dbn p : String) :
    isErrLine s!"Dumping database {dbn} to {p}" = false := by
  have h1 := isErr_ext (toString "Dumping database ") (toString dbn)
    (by decide) (by decide)
  have h2 := isErr_ext _ (toString " to ") h1.1 h1.2
  have h3 := isErr_ext _ (toString p) h2.1 h2.2
  exact (isErr_ext _ (toString "") h3.1 h3.2).1

theorem notErr_restoring (dbn p : String) :
    isErrLine s!"Restoring database {dbn} from {p}" = false := by
  have h1 := isErr_ext (toString "Restoring database ") (toString dbn)
    (by decide) (by decide)
  have h2 := isErr_ext _ (toString " from ") h1.1 h1.2
  have h3 := isErr_ext _ (toString p) h2.1 h2.2
  exact (isErr_ext _ (toString "") h3.1 h3.2).1

theorem isErr_error_line (e : String) : isErrLine s!"ERROR: {e}" = true := by
  have h1 := isErrTrue_ext (toString "ERROR: ") (toString e) (by decide) (by decide)
  exact (isErrTrue_ext _ (toString "") h1.1 h1.2).1

theorem isErr_notdir_line (p : String) :
    isErrLine s!"ERROR: {p} is not a directory." = true := by
  have h1 := isErrTrue_ext (toString "ERROR: ") (toString p) (by decide) (by decide)
  exact (isErrTrue_ext _ (toString " is not a directory.") h1.1 h1.2).1

theorem cloneDocs_errCount (T : Nat) (cname : String) :
    ∀ (docs : List BDoc) (batch : List (BVal × BDoc)) (count : Nat) (st : St),
      errCount (stOfDocs (cloneDocs T cname docs batch count st)).logs =
        errCount st.logs := by
  intro docs
  induction docs with
  | nil => intro batch count st; rfl
  | cons d rest ih =>
    intro batch count st
    cases hid : getField d "_id" with
    | none => simp [cloneDocs, hid, stOfDocs]
    | some k =>
      by_cases hT : T ≤ (batch ++ [(k, d)]).length
      · simp only [cloneDocs, hid, hT, if_true]
        rw [ih]
        simp only [logMsg, bulkWrite]
        exact errCount_snoc_false _ _ (notErr_processed _)
      · simp only [cloneDocs, hid, hT, if_false]
        exact ih _ _ _

theorem cloneColl_errCount (T : Nat) (cname : String) (docs : List BDoc) (st : St) :
    errCount (stOfRun (cloneColl T cname docs st)).logs = errCount st.logs := by
  have h := cloneDocs_errCount T cname docs [] 0 st
  unfold cloneColl
  cases hres : cloneDocs T cname docs [] 0 st with
  | error e =>
    rw [hres] at h
    simpa [stOfDocs, stOfRun] using h
  | ok tri =>
    obtain ⟨b, c, st3⟩ := tri
    rw [hres] at h
    simp only [stOfDocs] at h
    cases hbe : b.isEmpty with
    | true => simpa [stOfRun, hbe] using h
    | false =>
      simp only [hbe, Bool.false_eq_true, if_false, stOfRun, logMsg, bulkWrite]
      rw [errCount_snoc_false _ _ (notErr_finished _ _)]
      exact h

theorem cloneColls_errCount (T : Nat) :
    ∀ (src : List (String × List BDoc)) (st : St),
      errCount (stOfRun (cloneColls T src st)).logs = errCount st.logs := by
  intro src
  induction src with
  | nil => intro st; rfl
  | cons e rest ih =>
    obtain ⟨cname, docs⟩ := e
    intro st
    cases hsys : strStarts cname "system." with
    | true => simp only [cloneColls, hsys, if_true]; exact ih st
    | false =>
      simp only [cloneColls, hsys, Bool.false_eq_true, if_false]
      have hcl := cloneColl_errCount T cname docs
        (logMsg s!"Cloning collection: {cname}" st)
      have hlog : errCount (logMsg s!"Cloning collection: {cname}" st).logs =
          errCount st.logs := by
        simp only [logMsg]
        exact errCount_snoc_false _ _ (notErr_cloning cname)
      cases hres : cloneColl T cname docs (logMsg s!"Cloning collection: {cname}" st) with
      | error e2 =>
        rw [hres] at hcl
        simp only [stOfRun] at hcl ⊢
        rw [hcl]
        exact hlog
      | ok st2 =>
        rw [hres] at hcl
        simp only [stOfRun] at hcl
        rw [ih st2, hcl, hlog]

theorem restoreLines_errCount (T : Nat) (cname : String) :
    ∀ (lines : List Line) (batch : List (BVal × BDoc)) (count : Nat) (st : St),
      errCount (stOfDocs (restoreLines T cname lines batch count st)).logs =
        errCount st.logs := by
  intro lines
  induction lines with
  | nil => intro batch count st; rfl
  | cons l rest ih =>
    intro batch count st
    cases l with
    | blank => simp only [restoreLines]; exact ih _ _ _
    | bad => simp [restoreLines, stOfDocs]
    | json j =>
      cases hdec : decodeJ j with
      | none => simp [restoreLines, hdec, stOfDocs]
      | some v =>
        cases v
        case doc d =>
          cases hid : getField d "_id" with
          | none => simp [restoreLines, hdec, hid, stOfDocs]
          | some k =>
            by_cases hT : T ≤ (batch ++ [(k, d)]).length
            · simp only [restoreLines, hdec, hid, hT, if_true]
              rw [ih]
              simp only [logMsg, bulkWrite]
              exact errCount_snoc_false _ _ (notErr_imported _)
            · simp only [restoreLines, hdec, hid, hT, if_false]
              exact ih _ _ _
        all_goals simp [restoreLines, hdec, stOfDocs]

theorem restoreFile_errCount (T : Nat) (cname : String) (lines : List Line) (st : St) :
    errCount (stOfRun (restoreFile T cname lines st)).logs = errCount st.logs := by
  have h := restoreLines_errCount T cname lines [] 0 st
  unfold restoreFile
  cases hres : restoreLines T cname lines [] 0 st with
  | error e =>
    rw [hres] at h
    simpa [stOfDocs, stOfRun] using h
  | ok tri =>
    obtain ⟨b, c, st3⟩ := tri
    rw [hres] at h
    simp only [stOfDocs] at h
    cases hbe : b.isEmpty with
    | true => simpa [stOfRun, hbe] using h
    | false =>
      simp only [hbe, Bool.false_eq_true, if_false, stOfRun, logMsg, bulkWrite]
      rw [errCount_snoc_false _ _ (notErr_finished _ _)]
      exact h

theorem restoreFiles_errCount (T : Nat) :
    ∀ (files : List (String × List Line)) (st : St),
      errCount (stOfRun (restoreFiles T files st)).logs = errCount st.logs := by
  intro files
  induction files with
  | nil => intro st; rfl
  | cons e rest ih =>
    obtain ⟨fname, lines⟩ := e
    intro st
    cases hjson : strEnds fname ".json" with
    | false =>
      simp only [restoreFiles, hjson, Bool.false_eq_true, if_false]
      exact ih st
    | true =>
      simp only [restoreFiles, hjson, if_true]
      have hcl := restoreFile_errCount T (strDropRight fname 5) lines
        (logMsg s!"Importing collection: {strDropRight fname 5}" st)
      have hlog : errCount
          (logMsg s!"Importing collection: {strDropRight fname 5}" st).logs =
          errCount st.logs := by
        simp only [logMsg]
        exact errCount_snoc_false _ _ (notErr_importing _)
      cases hres : restoreFile T (strDropRight fname 5) lines
          (logMsg s!"Importing collection: {strDropRight fname 5}" st) with
      | error e2 =>
        rw [hres] at hcl
        simp only [stOfRun] at hcl ⊢
        rw [hcl]
        exact hlog
      | ok st2 =>
        rw [hres] at hcl
        simp only [stOfRun] at hcl
        rw [ih st2, hcl, hlog]

theorem dumpColls_errCount :
    ∀ (src : List (String × List BDoc)) (files : List (String × List Line))
      (logs : List String),
      errCount (dumpColls src files logs).2 = errCount logs := by
  intro src
  induction src with
  | nil => intro files logs; rfl
  | cons e rest ih =>
    obtain ⟨cname, docs⟩ := e
    intro files logs
    cases hsys : strStarts cname "system." with
    | true => simp only [dumpColls, hsys, if_true]; exact ih _ _
    | false =>
      simp only [dumpColls, hsys, Bool.false_eq_true, if_false]
      rw [ih, errCount_snoc_false _ _ (notErr_exporting cname)]

/-- Claim C7: uniform error boundary and status contract.  Each operation
returns an integer status that is always 0 or 1 (0 = success, 1 =
failure); a failing run logs exactly one line of the form
`ERROR: <details>` and a successful run logs none.  (`dump_to_file` has no
failure source inside the model — connection and filesystem failures are
external — so it always returns 0 with no ERROR line.) -/
theorem error_status_contract :
    (∀ (T : Nat) (sn dn : String) (src : List (String × List BDoc)) (db0 : DB),
      ((directClone T sn dn src db0).1 = 0 ∨ (directClone T sn dn src db0).1 = 1) ∧
      errCount (directClone T sn dn src db0).2.logs =
        (if (directClone T sn dn src db0).1 = 0 then 0 else 1)) ∧
    (∀ (dbn p : String) (src : List (String × List BDoc)),
      (dumpToFile dbn p src).1 = 0 ∧ errCount (dumpToFile dbn p src).2.2 = 0) ∧
    (∀ (T : Nat) (dbn p : String) (input : Option (List (String × List Line)))
      (db0 : DB),
      ((restoreFromFile T dbn p input db0).1 = 0 ∨
        (restoreFromFile T dbn p input db0).1 = 1) ∧
      errCount (restoreFromFile T dbn p input db0).2.logs =
        (if (restoreFromFile T dbn p input db0).1 = 0 then 0 else 1)) := by
  refine ⟨?_, ?_, ?_⟩
  · intro T sn dn src db0
    have h0 : errCount ({ db := db0, flushes := [], logs := [s!"Starting direct clone from {sn} to {dn}"] } : St).logs = 0 := by
      have := errCount_snoc_false [] s!"Starting direct clone from {sn} to {dn}"
        (notErr_start sn dn)
      simpa using this
    have h := cloneColls_errCount T src
      { db := db0, flushes := [],
        logs := [s!"Starting direct clone from {sn} to {dn}"] }
    have hstatus := directClone_status T sn dn src db0
    have herr : errCount (directClone T sn dn src db0).2.logs =
        (if cloneCollsOk T src then 0 else 1) := by
      have hok := cloneColls_isOk T src
        { db := db0, flushes := [],
          logs := [s!"Starting direct clone from {sn} to {dn}"] }
      simp only [directClone]
      cases hres : cloneColls T src
          { db := db0, flushes := [],
            logs := [s!"Starting direct clone from {sn} to {dn}"] } with
      | ok st =>
        rw [hres] at h hok
        simp only [stOfRun] at h
        simp only [Except.isOk, Except.toBool] at hok
        rw [← hok]
        show errCount (logMsg "Direct clone completed successfully." st).logs = 0
        simp only [logMsg]
        rw [errCount_snoc_false _ _ (by decide), h, h0]
      | error e =>
        obtain ⟨edetail, est⟩ := e
        rw [hres] at h hok
        simp only [stOfRun] at h
        simp only [Except.isOk, Except.toBool] at hok
        rw [← hok]
        show errCount (logMsg s!"ERROR: {edetail}" est).logs = 1
        simp only [logMsg]
        rw [errCount_snoc_true _ _ (isErr_error_line edetail), h, h0]
    cases hok2 : cloneCollsOk T src with
    | true =>
      rw [hok2] at hstatus herr
      simp only [if_true] at hstatus herr
      rw [hstatus, herr]
      simp
    | false =>
      rw [hok2] at hstatus herr
      simp only [Bool.false_eq_true, if_false] at hstatus herr
      rw [hstatus, herr]
      simp
  · intro dbn p src
    refine ⟨rfl, ?_⟩
    have h0 : errCount [s!"Dumping database {dbn} to {p}"] = 0 := by
      have := errCount_snoc_false [] s!"Dumping database {dbn} to {p}"
        (notErr_dumping dbn p)
      simpa using this
    simp only [dumpToFile]
    rw [errCount_snoc_false _ _ (by decide), dumpColls_errCount, h0]
  · intro T dbn p input db0
    have h0 : errCount ({ db := db0, flushes := [], logs := [s!"Restoring database {dbn} from {p}"] } : St).logs = 0 := by
      have := errCount_snoc_false [] s!"Restoring database {dbn} from {p}"
        (notErr_restoring dbn p)
      simpa using this
    cases input with
    | none =>
      refine ⟨Or.inr rfl, ?_⟩
      show errCount (logMsg s!"ERROR: {p} is not a directory." { db := db0, flushes := [], logs := [s!"Restoring database {dbn} from {p}"] }).logs = 1
      simp only [logMsg]
      rw [errCount_snoc_true _ _ (isErr_notdir_line p), h0]
    | some files =>
      have h := restoreFiles_errCount T files
        { db := db0, flushes := [],
          logs := [s!"Restoring database {dbn} from {p}"] }
      have hstatus := restoreFromFile_status T dbn p files db0
      have herr : errCount (restoreFromFile T dbn p (some files) db0).2.logs =
          (if restoreFilesOk T files then 0 else 1) := by
        have hok := restoreFiles_isOk T files
          { db := db0, flushes := [],
            logs := [s!"Restoring database {dbn} from {p}"] }
        simp only [restoreFromFile]
        cases hres : restoreFiles T files
            { db := db0, flushes := [],
              logs := [s!"Restoring database {dbn} from {p}"] } with
        | ok st =>
          rw [hres] at h hok
          simp only [stOfRun] at h
          simp only [Except.isOk, Except.toBool] at hok
          rw [← hok]
          show errCount (logMsg "Restore completed successfully." st).logs = 0
          simp only [logMsg]
          rw [errCount_snoc_false _ _ (by decide), h, h0]
        | error e =>
          obtain ⟨edetail, est⟩ := e
          rw [hres] at h hok
          simp only [stOfRun] at h
          simp only [Except.isOk, Except.toBool] at hok
          rw [← hok]
          show errCount (logMsg s!"ERROR: {edetail}" est).logs = 1
          simp only [logMsg]
          rw [errCount_snoc_true _ _ (isErr_error_line edetail), h, h0]
      cases hok2 : restoreFilesOk T files with
      | true =>
        rw [hok2] at hstatus herr
        simp only [if_true] at hstatus herr
        rw [hstatus, herr]
        simp
      | false =>
        rw [hok2] at hstatus herr
        simp only [Bool.false_eq_true, if_false] at hstatus herr
        rw [hstatus, herr]
        simp

/-! ### Failure boundary of restore -/

theorem restoreLines_append (T : Nat) (cname : String) :
    ∀ (l1 l2 : List Line) (batch : List (BVal × BDoc)) (count : Nat) (st : St),
      restoreLines T cname (l1 ++ l2) batch count st =
        match restoreLines T cname l1 batch count st with
        | .ok (b, c, st2) => restoreLines T cname l2 b c st2
        | .error e => .error e := by
  intro l1
  induction l1 with
  | nil => intro l2 batch count st; rfl
  | cons l rest ih =>
    intro l2 batch count st
    cases l with
    | blank => simp only [List.cons_append, restoreLines]; exact ih _ _ _ _
    | bad => simp [restoreLines]
    | json j =>
      cases hdec : decodeJ j with
      | none => simp [restoreLines, hdec]
      | some v =>
        cases v
        case doc d =>
          cases hid : getField d "_id" with
          | none => simp [restoreLines, hdec, hid]
          | some k =>
            by_cases hT : T ≤ (batch ++ [(k, d)]).length
            · simp only [List.cons_append, restoreLines, hdec, hid, hT, if_true]
              exact ih _ _ _ _
            · simp only [List.cons_append, restoreLines, hdec, hid, hT, if_false]
              exact ih _ _ _ _
        all_goals simp [restoreLines, hdec]

theorem linesPending_append (T : Nat) :
    ∀ (l1 l2 : List Line) (batch : List (BVal × BDoc)),
      linesPending T (l1 ++ l2) batch =
        match linesPending T l1 batch with
        | some b => linesPending T l2 b
        | none => none := by
  intro l1
  induction l1 with
  | nil => intro l2 batch; rfl
  | cons l rest ih =>
    intro l2 batch
    cases l with
    | blank => simp only [List.cons_append, linesPending]; exact ih _ _
    | bad => simp [linesPending]
    | json j =>
      cases hdec : decodeJ j with
      | none => simp [linesPending, hdec]
      | some v =>
        cases v
        case doc d =>
          cases hid : getField d "_id" with
          | none => simp [linesPending, hdec, hid]
          | some k =>
            by_cases hT : T ≤ (batch ++ [(k, d)]).length
            · simp only [List.cons_append, linesPending, hdec, hid, hT, if_true]
              exact ih _ _
            · simp only [List.cons_append, linesPending, hdec, hid, hT, if_false]
              exact ih _ _
        all_goals simp [linesPending, hdec]

theorem linesOps_append (T : Nat) (cname : String) :
    ∀ (l1 l2 : List Line) (batch : List (BVal × BDoc)),
      linesOps T cname (l1 ++ l2) batch =
        match linesPending T l1 batch with
        | some b => linesOps T cname l1 batch ++ linesOps T cname l2 b
        | none => linesOps T cname l1 batch := by
  intro l1
  induction l1 with
  | nil => intro l2 batch; rfl
  | cons l rest ih =>
    intro l2 batch
    cases l with
    | blank => simp only [List.cons_append, linesOps, linesPending]; exact ih _ _
    | bad => simp [linesOps, linesPending]
    | json j =>
      cases hdec : decodeJ j with
      | none => simp [linesOps, linesPending, hdec]
      | some v =>
        cases v
        case doc d =>
          cases hid : getField d "_id" with
          | none => simp [linesOps, linesPending, hdec, hid]
          | some k =>
            by_cases hT : T ≤ (batch ++ [(k, d)]).length
            · simp only [List.cons_append, linesOps, linesPending, hdec, hid, hT,
                if_true, List.append_eq]
              rw [ih]
              cases hlp : linesPending T rest [] with
              | some b => simp [List.append_assoc]
              | none => rfl
            · simp only [List.cons_append, linesOps, linesPending, hdec, hid, hT,
                if_false]
              exact ih _ _
        all_goals simp [linesOps, linesPending, hdec]

theorem restoreFiles_append (T : Nat) :
    ∀ (f1 f2 : List (String × List Line)) (st : St),
      restoreFiles T (f1 ++ f2) st =
        match restoreFiles T f1 st with
        | .ok st2 => restoreFiles T f2 st2
        | .error e => .error e := by
  intro f1
  induction f1 with
  | nil => intro f2 st; rfl
  | cons e rest ih =>
    obtain ⟨fname, lines⟩ := e
    intro f2 st
    cases hjson : strEnds fname ".json" with
    | false =>
      simp only [List.cons_append, restoreFiles, hjson, Bool.false_eq_true, if_false]
      exact ih _ _
    | true =>
      simp only [List.cons_append, restoreFiles, hjson, if_true]
      cases hres : restoreFile T (strDropRight fname 5) lines
          (logMsg s!"Importing collection: {strDropRight fname 5}" st) with
      | error e2 => rfl
      | ok st2 => exact ih _ _

theorem restoreFilesOk_append (T : Nat) :
    ∀ (f1 f2 : List (String × List Line)),
      restoreFilesOk T f1 = true →
      restoreFilesOk T (f1 ++ f2) = restoreFilesOk T f2 := by
  intro f1
  induction f1 with
  | nil => intro f2 _; rfl
  | cons e rest ih =>
    obtain ⟨fname, lines⟩ := e
    intro f2 hok
    cases hjson : strEnds fname ".json" with
    | false =>
      simp only [restoreFilesOk, hjson, Bool.false_eq_true, if_false] at hok
      simp only [List.cons_append, restoreFilesOk, hjson, Bool.false_eq_true, if_false]
      exact ih f2 hok
    | true =>
      simp only [restoreFilesOk, hjson, if_true] at hok
      simp only [List.cons_append, restoreFilesOk, hjson, if_true]
      cases hlp : linesPending T lines [] with
      | none => rw [hlp] at hok; exact absurd hok (by simp)
      | some b =>
        rw [hlp] at hok
        exact ih f2 hok

theorem restoreFilesOps_append_ok (T : Nat) :
    ∀ (f1 f2 : List (String × List Line)),
      restoreFilesOk T f1 = true →
      restoreFilesOps T (f1 ++ f2) = restoreFilesOps T f1 ++ restoreFilesOps T f2 := by
  intro f1
  induction f1 with
  | nil => intro f2 _; rfl
  | cons e rest ih =>
    obtain ⟨fname, lines⟩ := e
    intro f2 hok
    cases hjson : strEnds fname ".json" with
    | false =>
      simp only [restoreFilesOk, hjson, Bool.false_eq_true, if_false] at hok
      simp only [List.cons_append, restoreFilesOps, hjson, Bool.false_eq_true, if_false]
      exact ih f2 hok
    | true =>
      simp only [restoreFilesOk, hjson, if_true] at hok
      simp only [List.cons_append, restoreFilesOps, hjson, if_true, List.append_eq]
      cases hlp : linesPending T lines [] with
      | none => rw [hlp] at hok; exact absurd hok (by simp)
      | some b =>
        rw [hlp] at hok
        rw [ih f2 hok]
        simp [List.append_assoc]

/-- Claim C5: failure boundary of restore.  A malformed (non-blank) line
aborts the whole `restore_from_file` call: the run returns status 1 and its
last log line is the single `ERROR: <decode error>` line; everything
flushed before the failure — all earlier files in the directory and the
full batches of the failing file's valid prefix — remains written in the
destination, and nothing after the malformed line is applied.  Blank lines
are skipped by the caller without error: a dump file holding only a blank
line restores with status 0 and no destination change. -/
theorem restore_failure_boundary :
    (∀ (T : Nat) (dbn p cname : String) (pre post : List (String × List Line))
      (good rest2 : List Line) (db0 : DB),
      restoreFilesOk T pre = true →
      (linesPending T good []).isSome = true →
      (restoreFromFile T dbn p
        (some (pre ++ (cname ++ ".json", good ++ Line.bad :: rest2) :: post))
        db0).1 = 1 ∧
      (restoreFromFile T dbn p
        (some (pre ++ (cname ++ ".json", good ++ Line.bad :: rest2) :: post))
        db0).2.db =
        applyOps db0 (restoreFilesOps T pre ++ linesOps T cname good []) ∧
      (restoreFromFile T dbn p
        (some (pre ++ (cname ++ ".json", good ++ Line.bad :: rest2) :: post))
        db0).2.logs.getLast? = some s!"ERROR: {jsonErrorDetail}") ∧
    (∀ (T : Nat) (dbn p f : String) (db0 : DB),
      (restoreFromFile T dbn p (some [(f ++ ".json", [Line.blank])]) db0).1 = 0 ∧
      (restoreFromFile T dbn p (some [(f ++ ".json", [Line.blank])]) db0).2.db = db0) := by
  constructor
  · intro T dbn p cname pre post good rest2 db0 hokpre hgood
    obtain ⟨b, hb⟩ := Option.isSome_iff_exists.mp hgood
    have hnone : linesPending T (good ++ Line.bad :: rest2) [] = none := by
      rw [linesPending_append, hb]
      rfl
    refine ⟨?_, ?_, ?_⟩
    · rw [restoreFromFile_status]
      have hfail : restoreFilesOk T
          (pre ++ (cname ++ ".json", good ++ Line.bad :: rest2) :: post) = false := by
        rw [restoreFilesOk_append T pre _ hokpre]
        simp only [restoreFilesOk, strEnds_json, if_true, hnone]
      rw [hfail]
      simp
    · rw [restoreFromFile_db]
      have hops : restoreFilesOps T
          (pre ++ (cname ++ ".json", good ++ Line.bad :: rest2) :: post) =
          restoreFilesOps T pre ++ linesOps T cname good [] := by
        rw [restoreFilesOps_append_ok T pre _ hokpre]
        congr 1
        simp only [restoreFilesOps, strEnds_json, if_true, hnone]
        rw [strDropRight_json]
        unfold restoreFileOps
        rw [hnone, linesOps_append, hb]
        simp [linesOps]
      rw [hops]
    · have hisok := restoreFiles_isOk T pre
        { db := db0, flushes := [],
          logs := [s!"Restoring database {dbn} from {p}"] }
      rw [hokpre] at hisok
      cases hres : restoreFiles T pre
          { db := db0, flushes := [],
            logs := [s!"Restoring database {dbn} from {p}"] } with
      | error e =>
        rw [hres] at hisok
        simp [Except.isOk, Except.toBool] at hisok
      | ok st2 =>
        have hm := restoreLines_pending T cname (good)
          [] 0 (logMsg s!"Importing collection: {cname}" st2)
        cases hrl : restoreLines T cname good [] 0
            (logMsg s!"Importing collection: {cname}" st2) with
        | error e2 =>
          rw [hrl] at hm
          rw [hb] at hm
          exact absurd hm (by simp)
        | ok tri =>
          obtain ⟨b2, c2, st4⟩ := tri
          have hlines : restoreLines T cname (good ++ Line.bad :: rest2) [] 0
              (logMsg s!"Importing collection: {cname}" st2) =
              .error (jsonErrorDetail, st4) := by
            rw [restoreLines_append, hrl]
            rfl
          have hfile : restoreFile T cname (good ++ Line.bad :: rest2)
              (logMsg s!"Importing collection: {cname}" st2) =
              .error (jsonErrorDetail, st4) := by
            unfold restoreFile
            rw [hlines]
          have hdrop : strDropRight (cname ++ ".json") 5 = cname := strDropRight_json cname
          have hfileset : restoreFiles T
              ((cname ++ ".json", good ++ Line.bad :: rest2) :: post) st2 =
              .error (jsonErrorDetail, st4) := by
            simp only [restoreFiles, strEnds_json, if_true, hdrop]
            rw [hfile]
          have hfiles : restoreFiles T
              (pre ++ (cname ++ ".json", good ++ Line.bad :: rest2) :: post)
              { db := db0, flushes := [],
                logs := [s!"Restoring database {dbn} from {p}"] } =
              .error (jsonErrorDetail, st4) := by
            rw [restoreFiles_append, hres]
            exact hfileset
          simp only [restoreFromFile, hfiles, logMsg]
          rw [List.getLast?_append_cons]
          rfl
  · intro T dbn p f db0
    have h1 : restoreFiles T [(f ++ ".json", [Line.blank])]
        { db := db0, flushes := [],
          logs := [s!"Restoring database {dbn} from {p}"] } =
        .ok (logMsg s!"Importing collection: {f}"
          { db := db0, flushes := [],
            logs := [s!"Restoring database {dbn} from {p}"] }) := by
      simp only [restoreFiles, strEnds_json, strDropRight_json, if_true]
      rfl
    constructor
    · simp only [restoreFromFile, h1]
    · simp only [restoreFromFile, h1, logMsg]

/-- Witness for C5 at concrete inputs: second file of the listing holds a
valid line, a blank line and then a malformed line. -/
theorem restore_failure_boundary_witness :
    restoreFilesOk 1000 ([] : List (String × List Line)) = true ∧
    (linesPending 1000
      [Line.blank, Line.json (encode (.doc (.field "_id" (.int 1) .nil)))]
      []).isSome = true ∧
    (restoreFromFile 1000 "dst" "dir"
      (some ([] ++ ("users" ++ ".json",
        [Line.blank, Line.json (encode (.doc (.field "_id" (.int 1) .nil)))] ++
          Line.bad :: []) :: [])) emptyDB).1 = 1 ∧
    (restoreFromFile 1000 "d2" "p2" (some [("users" ++ ".json", [Line.blank])])
      emptyDB).1 = 0 :=
  ⟨by decide, by decide,
    (restore_failure_boundary.1 1000 "dst" "dir" "users" [] []
      [Line.blank, Line.json (encode (.doc (.field "_id" (.int 1) .nil)))]
      [] emptyDB (by decide) (by decide)).1,
    (restore_failure_boundary.2 1000 "d2" "p2" "users" emptyDB).1⟩

/-- Claim C10: every transferred document must carry `_id`.  In
`direct_clone`, a source document without `_id` makes the `doc['_id']`
lookup raise; the whole run aborts at the top-level boundary with status 1
and the `ERROR:` line as last log — the documents after it (and all later
collections) are never applied: with the failure at the very first
document the destination is completely unchanged.  The same holds in
`restore_from_file` for a decoded dump line without `_id`.  There is no
per-document skip and no default-key fallback. -/
theorem missing_id_aborts :
    (∀ (T : Nat) (sn dn cname : String) (bad : BDoc) (after : List BDoc)
      (rest : List (String × List BDoc)) (db0 : DB),
      strStarts cname "system." = false →
      getField bad "_id" = none →
      (directClone T sn dn ((cname, bad :: after) :: rest) db0).1 = 1 ∧
      (directClone T sn dn ((cname, bad :: after) :: rest) db0).2.db = db0 ∧
      (directClone T sn dn ((cname, bad :: after) :: rest) db0).2.logs.getLast? =
        some s!"ERROR: {keyErrorId}") ∧
    (∀ (T : Nat) (dbn p cname : String) (j : JVal) (d : BDoc)
      (restLines : List Line) (restFiles : List (String × List Line)) (db0 : DB),
      decodeJ j = some (.doc d) →
      getField d "_id" = none →
      (restoreFromFile T dbn p
        (some ((cname ++ ".json", Line.json j :: restLines) :: restFiles)) db0).1 = 1 ∧
      (restoreFromFile T dbn p
        (some ((cname ++ ".json", Line.json j :: restLines) :: restFiles)) db0).2.db
        = db0 ∧
      (restoreFromFile T dbn p
        (some ((cname ++ ".json", Line.json j :: restLines) :: restFiles))
        db0).2.logs.getLast? = some s!"ERROR: {keyErrorId}") := by
  constructor
  · intro T sn dn cname bad after rest db0 hsys hbad
    have hdocs : cloneDocs T cname (bad :: after) [] 0
        (logMsg s!"Cloning collection: {cname}"
          { db := db0, flushes := [],
            logs := [s!"Starting direct clone from {sn} to {dn}"] }) =
        .error (keyErrorId,
          logMsg s!"Cloning collection: {cname}"
            { db := db0, flushes := [],
              logs := [s!"Starting direct clone from {sn} to {dn}"] }) := by
      simp [cloneDocs, hbad]
    have hcoll : cloneColl T cname (bad :: after)
        (logMsg s!"Cloning collection: {cname}"
          { db := db0, flushes := [],
            logs := [s!"Starting direct clone from {sn} to {dn}"] }) =
        .error (keyErrorId,
          logMsg s!"Cloning collection: {cname}"
            { db := db0, flushes := [],
              logs := [s!"Starting direct clone from {sn} to {dn}"] }) := by
      unfold cloneColl
      rw [hdocs]
    have hcolls : cloneColls T ((cname, bad :: after) :: rest)
        { db := db0, flushes := [],
          logs := [s!"Starting direct clone from {sn} to {dn}"] } =
        .error (keyErrorId,
          logMsg s!"Cloning collection: {cname}"
            { db := db0, flushes := [],
              logs := [s!"Starting direct clone from {sn} to {dn}"] }) := by
      simp only [cloneColls, hsys, Bool.false_eq_true, if_false]
      rw [hcoll]
    refine ⟨?_, ?_, ?_⟩
    · simp only [directClone, hcolls]
    · simp only [directClone, hcolls, logMsg]
    · simp only [directClone, hcolls, logMsg]
      rw [List.getLast?_append_cons]
      rfl
  · intro T dbn p cname j d restLines restFiles db0 hdec hid
    have hdrop : strDropRight (cname ++ ".json") 5 = cname := strDropRight_json cname
    have hlines : restoreLines T cname (Line.json j :: restLines) [] 0
        (logMsg s!"Importing collection: {cname}"
          { db := db0, flushes := [],
            logs := [s!"Restoring database {dbn} from {p}"] }) =
        .error (keyErrorId,
          logMsg s!"Importing collection: {cname}"
            { db := db0, flushes := [],
              logs := [s!"Restoring database {dbn} from {p}"] }) := by
      simp [restoreLines, hdec, hid]
    have hfile : restoreFile T cname (Line.json j :: restLines)
        (logMsg s!"Importing collection: {cname}"
          { db := db0, flushes := [],
            logs := [s!"Restoring database {dbn} from {p}"] }) =
        .error (keyErrorId,
          logMsg s!"Importing collection: {cname}"
            { db := db0, flushes := [],
              logs := [s!"Restoring database {dbn} from {p}"] }) := by
      unfold restoreFile
      rw [hlines]
    have hfiles : restoreFiles T
        ((cname ++ ".json", Line.json j :: restLines) :: restFiles)
        { db := db0, flushes := [],
          logs := [s!"Restoring database {dbn} from {p}"] } =
        .error (keyErrorId,
          logMsg s!"Importing collection: {cname}"
            { db := db0, flushes := [],
              logs := [s!"Restoring database {dbn} from {p}"] }) := by
      simp only [restoreFiles, strEnds_json, if_true, hdrop]
      rw [hfile]
    refine ⟨?_, ?_, ?_⟩
    · simp only [restoreFromFile, hfiles]
    · simp only [restoreFromFile, hfiles, logMsg]
    · simp only [restoreFromFile, hfiles, logMsg]
      rw [List.getLast?_append_cons]
      rfl

/-- Witness for C10 at concrete inputs. -/
theorem missing_id_aborts_witness :
    strStarts "users" "system." = false ∧
    getField (BDoc.field "name" (.str "A") .nil) "_id" = none ∧
    (directClone 1000 "s" "d"
      [("users", [BDoc.field "name" (.str "A") .nil,
                  BDoc.field "_id" (.int 2) .nil])] emptyDB).1 = 1 ∧
    decodeJ (encode (.doc (.field "x" (.int 1) .nil))) =
      some (.doc (.field "x" (.int 1) .nil)) ∧
    (restoreFromFile 1000 "dst" "dir"
      (some [("users" ++ ".json",
        [Line.json (encode (.doc (.field "x" (.int 1) .nil)))])]) emptyDB).1 = 1 :=
  ⟨by decide, by decide,
    (missing_id_aborts.1 1000 "s" "d" "users" (BDoc.field "name" (.str "A") .nil)
      [BDoc.field "_id" (.int 2) .nil] [] emptyDB (by decide) (by decide)).1,
    by decide,
    (missing_id_aborts.2 1000 "dst" "dir" "users"
      (encode (.doc (.field "x" (.int 1) .nil))) (.field "x" (.int 1) .nil)
      [] [] emptyDB (by decide) (by decide)).1⟩
